import Mathlib

/-!
# Verification of the OpenClaw task scheduling and execution subsystem

Shallow embedding of three components of the repository:

* `src/runner/TaskQueue.ts` — the SQLite-backed persistent task queue
  (`claimNext`, `updateStatus`, `requeueRecurring`, the startup stale-reset
  scan).  The SQLite table `tasks` is modelled as a `List Task`; SQL `UPDATE`
  statements become `List.map` over the rows.  ISO-8601 timestamp strings of a
  fixed format compare lexicographically exactly as their instants compare, so
  timestamps are modelled as `Nat` milliseconds and string comparison as `≤`.
* `src/llm/LLMRouter.ts` — the multi-provider dispatcher with per-credential
  health tracking (`healthyKeysFor`, `markRateLimit`, `markDisabled`,
  `complete`).  The in-memory `keyHealth` array is a `List KeyHealth`;
  `Array.prototype.find` followed by in-place mutation becomes `markFirst`.
  The external provider clients are an oracle `attempt : provider → key →
  Except LLMError LLMResponse`.
* `src/runner/AgentRunner.ts` — `executeTask`, the bounded step loop.  The
  external collaborators (episodic memory, planner/step completions, the page
  observer, `JSON.parse`) are oracles collected in `RunnerEnv`; JavaScript
  exceptions are `Except`.  The activity-feed path (`postStatus`) wraps its
  whole body in `try { … } catch {}`, so it can affect none of the modelled
  state and is embedded as a no-op.  The runner is modelled as not being
  stopped mid-run (`this.running` stays `true`), which is the regime every
  claim under study speaks about.
-/

namespace OpenClaw

/-! ## Task queue data model (src/runner/types.ts) -/

/-- Task status enum from `src/runner/types.ts`. -/
inductive TaskStatus where
  | queued
  | running
  | done
  | failed
  | paused
deriving DecidableEq, Repr

/-- Recurrence rule from `src/runner/types.ts`. -/
inductive RecurrenceRule where
  | once
  | every (intervalMs : Nat)
  | cron (expr : String) (tz : Option String)
deriving DecidableEq, Repr

/-- Task payload from `src/runner/types.ts`; the free-form `params` map is
irrelevant to every operation modelled here and is carried opaquely as a
list of key/value pairs. -/
structure TaskPayload where
  goal : String
  url : Option String := none
  params : List (String × String) := []
  constraints : List String := []
deriving DecidableEq, Repr

/-- One row of the `tasks` table.  Timestamps are `Nat` milliseconds since
epoch (ISO strings of one format compare lexicographically the same way). -/
structure Task where
  id : String
  agentId : String
  status : TaskStatus
  priority : Nat
  payload : TaskPayload
  recurrence : Option RecurrenceRule := none
  nextRunAt : Option Nat := none
  statusReason : Option String := none
  createdAt : Nat
  updatedAt : Nat
deriving DecidableEq, Repr

/-! ## TaskQueue operations (src/runner/TaskQueue.ts) -/

/-- `STALE_RUNNING_MS = 5 * 60 * 1000` from `src/runner/TaskQueue.ts`. -/
def STALE_RUNNING_MS : Nat := 5 * 60 * 1000

/-- The `WHERE` clause of `claimNext`'s `SELECT`:
`agent_id = ? AND status = 'queued' AND (next_run_at IS NULL OR next_run_at <= ?)`. -/
def eligibleTask (now : Nat) (agentId : String) (t : Task) : Bool :=
  t.agentId == agentId && t.status == TaskStatus.queued &&
    (match t.nextRunAt with
     | none => true
     | some m => m ≤ now)

/-- Strict version of the `ORDER BY priority ASC, created_at ASC` key:
`u` sorts strictly before `t`. -/
def priBefore (u t : Task) : Bool :=
  u.priority < t.priority || (u.priority == t.priority && u.createdAt < t.createdAt)

/-- The `SELECT … ORDER BY priority ASC, created_at ASC LIMIT 1` of
`claimNext`: scan the rows, keeping the first row that is minimal for the
`(priority, created_at)` key among the eligible ones. -/
def selectEligible (now : Nat) (agentId : String) : List Task → Option Task
  | [] => none
  | t :: ts =>
    if eligibleTask now agentId t then
      match selectEligible now agentId ts with
      | none => some t
      | some u => if priBefore u t then some u else some t
    else
      selectEligible now agentId ts

/-- `claimNext(agentId)` from `src/runner/TaskQueue.ts`: select the eligible
row, then `UPDATE tasks SET status = 'running', updated_at = ? WHERE id = ?`.
The returned task is `rowToTask({ ...row, status: "running" })`, i.e. the row
as read with only its status overridden. -/
def claimNext (now : Nat) (agentId : String) (tasks : List Task) :
    Option Task × List Task :=
  match selectEligible now agentId tasks with
  | none => (none, tasks)
  | some t =>
    (some { t with status := TaskStatus.running },
     tasks.map fun u =>
       if u.id = t.id then { u with status := TaskStatus.running, updatedAt := now } else u)

/-- `updateStatus(taskId, status, reason?)` from `src/runner/TaskQueue.ts`:
`UPDATE tasks SET status = ?, status_reason = ?, updated_at = ? WHERE id = ?`
with `reason ?? null` bound for `status_reason`. -/
def updateStatus (now : Nat) (taskId : String) (status : TaskStatus)
    (reason : Option String) (tasks : List Task) : List Task :=
  tasks.map fun t =>
    if t.id = taskId then
      { t with status := status, statusReason := reason, updatedAt := now }
    else t

/-- `nextRunFor(rule)` from `src/runner/TaskQueue.ts`: `undefined` for `once`,
`now + intervalMs` for `every`, and `undefined` for `cron` (the admitted
approximation in the source). -/
def nextRunFor (now : Nat) : RecurrenceRule → Option Nat
  | RecurrenceRule.once => none
  | RecurrenceRule.every intervalMs => some (now + intervalMs)
  | RecurrenceRule.cron _ _ => none

/-- `requeueRecurring(task)` from `src/runner/TaskQueue.ts`. -/
def requeueRecurring (now : Nat) (task : Task) (tasks : List Task) : List Task :=
  match task.recurrence with
  | none => tasks
  | some RecurrenceRule.once => tasks
  | some rule =>
    tasks.map fun t =>
      if t.id = task.id then
        { t with status := TaskStatus.queued, nextRunAt := nextRunFor now rule,
                 statusReason := none, updatedAt := now }
      else t

/-- The per-row effect of the startup recovery `UPDATE` in `initialize()`:
`SET status = 'queued', status_reason = 'reset after stale run', updated_at = ?
WHERE status = 'running' AND updated_at < ?` with the threshold
`now - STALE_RUNNING_MS`. -/
def staleResetTask (now : Nat) (t : Task) : Task :=
  if t.status = TaskStatus.running ∧ t.updatedAt < now - STALE_RUNNING_MS then
    { t with status := TaskStatus.queued,
             statusReason := some "reset after stale run",
             updatedAt := now }
  else t

/-- The whole startup recovery scan over the `tasks` table. -/
def staleResetScan (now : Nat) (tasks : List Task) : List Task :=
  tasks.map (staleResetTask now)

/-! ## LLM router model (src/llm/LLMRouter.ts and src/llm/types.ts) -/

/-- Request capability from `src/llm/types.ts`. -/
inductive LLMCapability where
  | reasoning
  | statusPing
  | embeddings
deriving DecidableEq, Repr

/-- A failed provider call as the router observes it: the optional
HTTP-equivalent `status` property and the error `message`. -/
structure LLMError where
  status : Option Nat := none
  message : String := ""
deriving DecidableEq, Repr

/-- A successful provider response (`{text, …}` from `src/llm/types.ts`);
only the text matters to the modelled control flow. -/
structure LLMResponse where
  text : String
  provider : String := ""
deriving DecidableEq, Repr

/-- One `keyHealth` entry from `src/llm/types.ts`: the JS object starts life
as `{provider, key}`, so `cooldownUntil`, `disabled`, `lastError` default to
the falsy state. -/
structure KeyHealth where
  provider : String
  key : String
  cooldownUntil : Option Nat := none
  disabled : Bool := false
  lastError : Option String := none
deriving DecidableEq, Repr

/-- `isRateLimit(err)` from `src/llm/LLMRouter.ts`. -/
def isRateLimit (e : LLMError) : Bool :=
  e.status == some 429

/-- Does `pat` occur as a prefix of `l`? -/
def charsPrefix : List Char → List Char → Bool
  | [], _ => true
  | _ :: _, [] => false
  | p :: ps, c :: cs => p == c && charsPrefix ps cs

/-- Does `pat` occur as a contiguous run of `l`? -/
def charsInfix (pat : List Char) : List Char → Bool
  | [] => charsPrefix pat []
  | c :: cs => charsPrefix pat (c :: cs) || charsInfix pat cs

/-- Substring test, the model of JavaScript `msg.includes(pat)` for the
all-ASCII patterns used. -/
def strContains (s pat : String) : Bool :=
  charsInfix pat.toList s.toList

/-- Character-wise lowercasing, the model of JavaScript `toLowerCase()` for
the ASCII range relevant to the matched patterns. -/
def lowerStr (s : String) : String :=
  String.mk (s.toList.map Char.toLower)

/-- `isInsufficientCredits(err)` from `src/llm/LLMRouter.ts`: statuses 402 and
403 qualify outright; otherwise the lowercased message is matched for
"insufficient", "credits" or "quota" — with no regard for whether a status
code is present. -/
def isInsufficientCredits (e : LLMError) : Bool :=
  if e.status == some 402 || e.status == some 403 then true
  else
    let msg := lowerStr e.message
    strContains msg "insufficient" || strContains msg "credits" || strContains msg "quota"

/-- `RATE_LIMIT_COOLDOWN_MS = 60_000` from `src/llm/LLMRouter.ts`. -/
def RATE_LIMIT_COOLDOWN_MS : Nat := 60000

/-- `MAX_RETRIES = 3` from `src/llm/LLMRouter.ts`: the global attempt budget. -/
def MAX_RETRIES : Nat := 3

/-- `Array.prototype.find` followed by mutation of the found entry: rewrite
the first element satisfying `p` with `f`, leaving everything else alone. -/
def markFirst (p : KeyHealth → Bool) (f : KeyHealth → KeyHealth) :
    List KeyHealth → List KeyHealth
  | [] => []
  | k :: ks => if p k then f k :: ks else k :: markFirst p f ks

/-- `markRateLimit(provider, key)` from `src/llm/LLMRouter.ts`. -/
def markRateLimit (now : Nat) (provider key : String) (kh : List KeyHealth) :
    List KeyHealth :=
  markFirst (fun k => k.provider == provider && k.key == key)
    (fun k => { k with cooldownUntil := some (now + RATE_LIMIT_COOLDOWN_MS),
                       lastError := some "rate-limited" }) kh

/-- `markDisabled(provider, key, reason)` from `src/llm/LLMRouter.ts`. -/
def markDisabled (provider key reason : String) (kh : List KeyHealth) :
    List KeyHealth :=
  markFirst (fun k => k.provider == provider && k.key == key)
    (fun k => { k with disabled := true, lastError := some reason }) kh

/-- `healthyKeysFor(provider)` from `src/llm/LLMRouter.ts`: keys of entries of
that provider that are not disabled and whose cooldown, if any, has expired,
in stored order. -/
def healthyKeysFor (now : Nat) (provider : String) (kh : List KeyHealth) :
    List String :=
  (kh.filter fun k =>
    k.provider == provider && !k.disabled &&
      (match k.cooldownUntil with
       | none => true
       | some c => c ≤ now)).map (fun k => k.key)

/-- The `catch` block shared by `complete` and `embed`: classify the failure,
checking `isInsufficientCredits` first and `isRateLimit` second, and mutate
the health registry accordingly (any other error leaves it untouched). -/
def applyFailure (now : Nat) (provider key : String) (e : LLMError)
    (kh : List KeyHealth) : List KeyHealth :=
  if isInsufficientCredits e then markDisabled provider key e.message kh
  else if isRateLimit e then markRateLimit now provider key kh
  else kh

/-- The aggregated error thrown when the budget is exhausted
(`LLMRouter: all providers/keys exhausted after N attempts. Last error: …`). -/
structure AggError where
  attempts : Nat
  lastError : Option LLMError
deriving DecidableEq, Repr

/-- Result of one `complete()` call: the outcome, the final `attempts`
counter, and the key-health registry after the call. -/
structure CompleteOut where
  result : Except AggError LLMResponse
  attempts : Nat
  health : List KeyHealth
deriving Repr

/-- The inner `for (const key of keys)` loop of `complete()`: try each key of
the snapshot list while the budget lasts, returning on the first success and
classifying each failure.  State threaded: attempts counter, last error, and
the health registry. -/
def tryKeys (now : Nat) (attempt : String → String → Except LLMError LLMResponse)
    (provider : String) :
    List String → Nat → Option LLMError → List KeyHealth →
    Option LLMResponse × Nat × Option LLMError × List KeyHealth
  | [], attempts, last, kh => (none, attempts, last, kh)
  | key :: rest, attempts, last, kh =>
    if MAX_RETRIES ≤ attempts then (none, attempts, last, kh)
    else
      match attempt provider key with
      | Except.ok r => (some r, attempts + 1, last, kh)
      | Except.error e =>
        tryKeys now attempt provider rest (attempts + 1) (some e)
          (applyFailure now provider key e kh)

/-- The outer `for (const provider of this.providerOrder)` loop of
`complete()`: stop when the budget is spent, skip every provider when the
request asks for embeddings, skip providers without a registered client, and
otherwise run the key loop on `healthyKeysFor`'s snapshot. -/
def tryProviders (now : Nat) (attempt : String → String → Except LLMError LLMResponse)
    (capability : LLMCapability) (clients : List String) :
    List String → Nat → Option LLMError → List KeyHealth →
    Option LLMResponse × Nat × Option LLMError × List KeyHealth
  | [], attempts, last, kh => (none, attempts, last, kh)
  | p :: ps, attempts, last, kh =>
    if MAX_RETRIES ≤ attempts then (none, attempts, last, kh)
    else if capability = LLMCapability.embeddings then
      tryProviders now attempt capability clients ps attempts last kh
    else if !(clients.contains p) then
      tryProviders now attempt capability clients ps attempts last kh
    else
      match tryKeys now attempt p (healthyKeysFor now p kh) attempts last kh with
      | (some r, a, l, kh') => (some r, a, l, kh')
      | (none, a, l, kh') => tryProviders now attempt capability clients ps a l kh'

/-- `complete(request)` from `src/llm/LLMRouter.ts`, abstracted over the
provider clients (`attempt`) and the clock (`now`). -/
def completeModel (now : Nat) (providerOrder : List String) (clients : List String)
    (capability : LLMCapability)
    (attempt : String → String → Except LLMError LLMResponse)
    (kh : List KeyHealth) : CompleteOut :=
  match tryProviders now attempt capability clients providerOrder 0 none kh with
  | (some r, a, _, kh') => { result := Except.ok r, attempts := a, health := kh' }
  | (none, a, l, kh') =>
    { result := Except.error { attempts := a, lastError := l }, attempts := a, health := kh' }

/-! ## Agent runner model (src/runner/AgentRunner.ts) -/

/-- `MAX_STEPS_PER_RUN = 20` from `src/runner/AgentRunner.ts`. -/
def MAX_STEPS_PER_RUN : Nat := 20

/-- `MAX_CONSECUTIVE_FAILURES = 3` from `src/runner/AgentRunner.ts`. -/
def MAX_CONSECUTIVE_FAILURES : Nat := 3

/-- One recorded run step (`RunStep` in `src/runner/types.ts`); the wall-clock
`timestampMs` field plays no role in any modelled behaviour and is omitted. -/
structure RunStep where
  index : Nat
  description : String
  result : String
deriving DecidableEq, Repr

/-- `WorkingMemory` from `src/runner/types.ts` (the scratch `context` map is
never touched by `executeTask` and is omitted). -/
structure WorkingMemory where
  goal : Option String := none
  currentPlan : Option (List String) := none
  currentStepIndex : Option Nat := none
  lastPageStateHash : Option String := none
deriving DecidableEq, Repr

/-- `AgentState` from `src/runner/types.ts` (heartbeat timestamps are not
modelled; no claim depends on them). -/
structure AgentStateM where
  agentId : String
  currentTaskId : Option String := none
  workingMemory : Option WorkingMemory := none
deriving DecidableEq, Repr

/-- `TaskRun` from `src/runner/types.ts`; `finished` records that
`finishedAt` was set. -/
structure TaskRunM where
  id : String
  taskId : String
  agentId : String
  steps : List RunStep
  finished : Bool
deriving DecidableEq, Repr

/-- `AlertType` from `src/page/types.ts`. -/
inductive AlertType where
  | cookieBanner
  | captcha
  | twofa
  | modal
  | notification
deriving DecidableEq, Repr

/-- The `type` string of an alert as it appears in reasons and contexts. -/
def alertName : AlertType → String
  | AlertType.cookieBanner => "cookie_banner"
  | AlertType.captcha => "captcha"
  | AlertType.twofa => "2fa"
  | AlertType.modal => "modal"
  | AlertType.notification => "notification"

/-- The slice of `PageState` (src/page/types.ts) that `executeTask` consumes:
the alert list and the page hash. -/
structure PageObs where
  title : String
  alerts : List AlertType
  hash : String
deriving DecidableEq, Repr

/-- The persistent world one agent's runner acts on: the `tasks` table, the
`task_runs` table, the agent's `agent_state` row, and the external episodic
memory (as the list of stored summaries). -/
structure World where
  tasks : List Task
  runs : List TaskRunM
  agentState : AgentStateM
  episodic : List String
deriving DecidableEq, Repr

/-- An error propagated out of `executeTask` (caught only by `tick`'s
top-level handler): the episodic-memory `search` and `store` calls are the
only awaited calls in `executeTask` not wrapped in a `try`. -/
inductive RunnerErr where
  | memSearchFailed (e : LLMError)
  | memStoreFailed (e : LLMError)
deriving DecidableEq, Repr

/-- The external collaborators of one `executeTask` call, as oracles:
`searchRes` is the episodic `search` outcome, `planRes` the planner
completion, `jparse` is `JSON.parse` restricted to string arrays (`none`
models a parse exception), `obsRes` the per-step page observation,
`stepRes` the per-step completion, `storeRes` the episodic `store` outcome. -/
structure RunnerEnv where
  searchRes : Except LLMError (List String)
  planRes : Except LLMError String
  jparse : String → Option (List String)
  hasGetPageState : Bool
  obsRes : Nat → Except Unit PageObs
  stepRes : Nat → Except LLMError String
  storeRes : Except LLMError Unit

/-- Index of the last occurrence of `c` in `cs`, if any. -/
def lastIndexOf (c : Char) (cs : List Char) : Option Nat :=
  match cs.reverse.findIdx? (· == c) with
  | none => none
  | some r => some (cs.length - 1 - r)

/-- The JavaScript regex match `text.match(/\[[\s\S]*\]/)`: greedy, so the
match runs from the first `[` that is followed by some `]` up to the last
`]` of the whole string.  Returns the matched substring. -/
def extractBracket (s : String) : Option String :=
  let cs := s.toList
  match lastIndexOf ']' cs with
  | none => none
  | some j =>
    match (cs.take j).findIdx? (· == '[') with
    | none => none
    | some i => some (String.mk ((cs.drop i).take (j + 1 - i)))

/-- The plan-construction block of `executeTask` (lines 112–142 of
`src/runner/AgentRunner.ts`): `plan` starts as `[]`; if the completion call
throws, `plan = [goal]`; otherwise, if a bracketed substring is found it is
`JSON.parse`d, with a parse exception caught to `plan = [goal]`; if no
bracketed substring is found, `plan` keeps its initial empty value. -/
def computePlan (env : RunnerEnv) (goal : String) : List String :=
  match env.planRes with
  | Except.error _ => [goal]
  | Except.ok text =>
    match extractBracket text with
    | none => []
    | some sub =>
      match env.jparse sub with
      | some arr => arr
      | none => [goal]

/-- Is the alert one of the blocking kinds (`captcha` / `2fa`)? -/
def isBlockingAlert (a : AlertType) : Bool :=
  a == AlertType.captcha || a == AlertType.twofa

/-- The pause reason built at line 173 of `src/runner/AgentRunner.ts`:
`Blocked by ${blockingAlerts.map(a => a.type).join(", ")}`. -/
def blockedReason (alerts : List AlertType) : String :=
  "Blocked by " ++ String.intercalate ", " (alerts.map alertName)

/-- Everything the step loop hands back: the recorded steps, the working
memory, the world (agent-state saves happen inside the loop), and the
`pauseReason` / `taskFailed` flags. -/
structure LoopOut where
  steps : List RunStep
  mem : WorkingMemory
  world : World
  pauseReason : Option String
  taskFailed : Bool
deriving DecidableEq, Repr

/-- One iteration of the `for (let stepIdx = 0; …)` loop of `executeTask`:
either the loop exits (`Sum.inl`, a `break` in the source), or it continues
into the next iteration with the updated consecutive-failure counter, working
memory, recorded steps, and world (`Sum.inr`).  A blocking alert exits with
`pauseReason` set before the step is recorded; a third consecutive failure
exits with `pauseReason`/`taskFailed` set before the step is recorded;
otherwise the step is recorded and the agent state saved; the trailing
re-check of the failure counter after recording is kept from the source
(it is unreachable because the earlier exit already fired). -/
def runLoopIter (env : RunnerEnv) (agentId taskId : String) (url : Option String)
    (plan : List String) (stepIdx cf : Nat) (mem0 : WorkingMemory)
    (steps : List RunStep) (w : World) :
    LoopOut ⊕ (Nat × WorkingMemory × List RunStep × World) :=
  let stepDesc := plan.getD stepIdx "Execute goal"
  let mem := { mem0 with currentStepIndex := some stepIdx }
  let obsOut : Except String WorkingMemory :=
    if url.isSome && env.hasGetPageState then
      match env.obsRes stepIdx with
      | Except.error _ => Except.ok mem
      | Except.ok ps =>
        let blocking := ps.alerts.filter isBlockingAlert
        if blocking.isEmpty then
          Except.ok { mem with lastPageStateHash := some ps.hash }
        else
          Except.error (blockedReason blocking)
    else Except.ok mem
  match obsOut with
  | Except.error reason =>
    Sum.inl { steps := steps, mem := mem, world := w,
              pauseReason := some reason, taskFailed := false }
  | Except.ok mem1 =>
    let cont : Nat → Bool → String → LoopOut ⊕ (Nat × WorkingMemory × List RunStep × World) :=
      fun cf2 stepOk stepResult =>
        let steps2 := steps ++ [{ index := stepIdx, description := stepDesc,
                                  result := stepResult : RunStep }]
        let w2 := { w with agentState :=
          { agentId := agentId, currentTaskId := some taskId, workingMemory := some mem1 } }
        if !stepOk && MAX_CONSECUTIVE_FAILURES ≤ cf2 then
          Sum.inl { steps := steps2, mem := mem1, world := w2,
                    pauseReason := none, taskFailed := false }
        else
          Sum.inr (cf2, mem1, steps2, w2)
    match env.stepRes stepIdx with
    | Except.ok text => cont 0 true text.trim
    | Except.error e =>
      if MAX_CONSECUTIVE_FAILURES ≤ cf + 1 then
        Sum.inl { steps := steps, mem := mem1, world := w,
                  pauseReason := some (toString MAX_CONSECUTIVE_FAILURES ++
                    " consecutive failures"),
                  taskFailed := true }
      else
        cont (cf + 1) false ("Error: " ++ e.message)

/-- The step loop of `executeTask`.  `fuel` is the number of remaining
iterations (`min plan.length MAX_STEPS_PER_RUN` minus the current index). -/
def runLoop (env : RunnerEnv) (agentId taskId : String) (url : Option String)
    (plan : List String) :
    Nat → Nat → Nat → WorkingMemory → List RunStep → World → LoopOut
  | 0, _, _, mem, steps, w =>
    { steps := steps, mem := mem, world := w, pauseReason := none, taskFailed := false }
  | fuel + 1, stepIdx, cf, mem0, steps, w =>
    match runLoopIter env agentId taskId url plan stepIdx cf mem0 steps w with
    | Sum.inl out => out
    | Sum.inr (cf2, mem2, steps2, w2) =>
      runLoop env agentId taskId url plan fuel (stepIdx + 1) cf2 mem2 steps2 w2

/-- `task.recurrence && task.recurrence.kind !== "once"` (line 246 of
`src/runner/AgentRunner.ts`). -/
def nonOnceRecurrence : Option RecurrenceRule → Bool
  | some (RecurrenceRule.every _) => true
  | some (RecurrenceRule.cron _ _) => true
  | _ => false

/-- Lines 264–273 of `src/runner/AgentRunner.ts`: persist the finished
`TaskRun` and clear the agent's current-task pointer (working memory is reset
to the empty object). -/
def finishRun (agentId : String) (run : TaskRunM) (w : World) :
    World × Option RunnerErr :=
  ({ w with runs := w.runs ++ [run],
            agentState :=
              { agentId := agentId, currentTaskId := none, workingMemory := some {} } },
   none)

/-- The working memory `executeTask` builds before the search call: the
persisted memory (or the empty object) with the goal overwritten
(lines 88–91 of `src/runner/AgentRunner.ts`). -/
def startMemory (task : Task) (w : World) : WorkingMemory :=
  { (w.agentState.workingMemory.getD {}) with goal := some task.payload.goal }

/-- The world after the initial `saveAgentState` (lines 93–98): current task
pointer set, working memory saved. -/
def startWorld (agentId : String) (task : Task) (w : World) : World :=
  { w with agentState :=
    { agentId := agentId, currentTaskId := some task.id,
      workingMemory := some (startMemory task w) } }

/-- The whole step loop of one `executeTask` call: the plan comes from
`computePlan`, the loop starts at index 0 with a zero failure counter, no
recorded steps, the start world, and the working memory extended with the
plan (lines 144–151). -/
def loopOut (env : RunnerEnv) (agentId : String) (task : Task) (w : World) : LoopOut :=
  runLoop env agentId task.id task.payload.url (computePlan env task.payload.goal)
    (min (computePlan env task.payload.goal).length MAX_STEPS_PER_RUN) 0 0
    { startMemory task w with
      currentPlan := some (computePlan env task.payload.goal),
      currentStepIndex := some 0 }
    [] (startWorld agentId task w)

/-- `executeTask(task)` from `src/runner/AgentRunner.ts`, with the activity
feed embedded as a no-op (its `try { … } catch {}` swallows every failure and
touches none of the modelled state) and the runner not stopped mid-run.
Returns the resulting world and, when one of the two unprotected
episodic-memory calls throws, the propagated error. -/
def executeTask (env : RunnerEnv) (now : Nat) (runId agentId : String)
    (task : Task) (w : World) : World × Option RunnerErr :=
  match env.searchRes with
  | Except.error e => (startWorld agentId task w, some (RunnerErr.memSearchFailed e))
  | Except.ok _hints =>
    let lout := loopOut env agentId task w
    let run : TaskRunM := { id := runId, taskId := task.id, agentId := agentId,
                            steps := lout.steps, finished := true }
    match lout.pauseReason with
    | some reason =>
      finishRun agentId run
        { lout.world with
          tasks := updateStatus now task.id TaskStatus.paused (some reason) lout.world.tasks }
    | none =>
      if lout.taskFailed then
        finishRun agentId run
          { lout.world with
            tasks := updateStatus now task.id TaskStatus.failed
              (some "max consecutive failures") lout.world.tasks }
      else
        let w3 :=
          if nonOnceRecurrence task.recurrence then
            { lout.world with tasks := requeueRecurring now task lout.world.tasks }
          else
            { lout.world with
              tasks := updateStatus now task.id TaskStatus.done none lout.world.tasks }
        match env.storeRes with
        | Except.error e => (w3, some (RunnerErr.memStoreFailed e))
        | Except.ok _ =>
          let summary := "Completed task \"" ++ task.payload.goal ++ "\" in " ++
            toString run.steps.length ++ " steps."
          finishRun agentId run { w3 with episodic := w3.episodic ++ [summary] }

/-! ## Helper lemmas about the task queue -/

/-- `priBefore u t = false` says `t`'s `(priority, created_at)` key is at most
`u`'s in the lexicographic order of the `ORDER BY` clause. -/
theorem priBefore_false_iff (u t : Task) :
    priBefore u t = false ↔
      (t.priority < u.priority ∨ (t.priority = u.priority ∧ t.createdAt ≤ u.createdAt)) := by
  simp only [priBefore, Bool.or_eq_false_iff, Bool.and_eq_false_iff, decide_eq_false_iff_not,
    beq_eq_false_iff_ne, ne_eq, beq_iff_eq]
  omega

/-- `priBefore` never holds of a task against itself. -/
theorem priBefore_irrefl (t : Task) : priBefore t t = false := by
  rw [priBefore_false_iff]; omega

/-- `priBefore` is asymmetric. -/
theorem priBefore_asymm {u t : Task} (h : priBefore u t = true) : priBefore t u = false := by
  rw [priBefore_false_iff]
  simp only [priBefore, Bool.or_eq_true, Bool.and_eq_true, decide_eq_true_eq, beq_iff_eq] at h
  omega

/-- Key order is transitive through two `priBefore … = false` facts. -/
theorem priBefore_false_trans {a b c : Task} (h1 : priBefore a b = false)
    (h2 : priBefore b c = false) : priBefore a c = false := by
  rw [priBefore_false_iff] at h1 h2 ⊢
  omega

/-- If the scan finds nothing, no row was eligible. -/
theorem selectEligible_none {now : Nat} {agentId : String} {tasks : List Task}
    (h : selectEligible now agentId tasks = none) :
    ∀ u ∈ tasks, eligibleTask now agentId u = false := by
  induction tasks with
  | nil => intro u hu; cases hu
  | cons t ts ih =>
    intro u hu
    rw [selectEligible] at h
    by_cases ht : eligibleTask now agentId t
    · rw [if_pos ht] at h
      cases hsel : selectEligible now agentId ts with
      | none => simp only [hsel] at h; cases h
      | some v =>
        simp only [hsel] at h
        by_cases hb : priBefore v t = true
        · rw [if_pos hb] at h; cases h
        · rw [if_neg hb] at h; cases h
    · rw [if_neg ht] at h
      rcases List.mem_cons.mp hu with rfl | hu
      · simpa using ht
      · exact ih h u hu

/-- A selected row is a member of the table, is eligible, and is minimal for
the `(priority, created_at)` key among all eligible rows. -/
theorem selectEligible_spec {now : Nat} {agentId : String} {tasks : List Task}
    {t : Task} (h : selectEligible now agentId tasks = some t) :
    t ∈ tasks ∧ eligibleTask now agentId t = true ∧
      ∀ u ∈ tasks, eligibleTask now agentId u = true → priBefore u t = false := by
  induction tasks generalizing t with
  | nil => cases h
  | cons x ts ih =>
    rw [selectEligible] at h
    by_cases hx : eligibleTask now agentId x
    · rw [if_pos hx] at h
      cases hsel : selectEligible now agentId ts with
      | none =>
        simp only [hsel, Option.some.injEq] at h
        subst h
        refine ⟨List.mem_cons_self _ _, hx, ?_⟩
        intro u hu hue
        rcases List.mem_cons.mp hu with rfl | hu
        · exact priBefore_irrefl _
        · exact absurd hue (by simp [selectEligible_none hsel u hu])
      | some v =>
        simp only [hsel] at h
        obtain ⟨hvmem, hvelig, hvmin⟩ := ih hsel
        by_cases hb : priBefore v x = true
        · rw [if_pos hb] at h
          simp only [Option.some.injEq] at h
          subst h
          refine ⟨List.mem_cons_of_mem _ hvmem, hvelig, ?_⟩
          intro u hu hue
          rcases List.mem_cons.mp hu with rfl | hu
          · exact priBefore_asymm hb
          · exact hvmin u hu hue
        · rw [if_neg hb] at h
          simp only [Option.some.injEq] at h
          subst h
          refine ⟨List.mem_cons_self _ _, hx, ?_⟩
          intro u hu hue
          rcases List.mem_cons.mp hu with rfl | hu
          · exact priBefore_irrefl _
          · exact priBefore_false_trans (hvmin u hu hue) (Bool.eq_false_iff.mpr hb)
    · rw [if_neg hx] at h
      obtain ⟨hmem, helig, hmin⟩ := ih h
      refine ⟨List.mem_cons_of_mem _ hmem, helig, ?_⟩
      intro u hu hue
      rcases List.mem_cons.mp hu with rfl | hu
      · exact absurd hue (by simp_all)
      · exact hmin u hu hue

/-- An eligible row exists, so the scan finds one. -/
theorem selectEligible_isSome {now : Nat} {agentId : String} {tasks : List Task}
    (h : ∃ t ∈ tasks, eligibleTask now agentId t = true) :
    ∃ t, selectEligible now agentId tasks = some t := by
  cases hsel : selectEligible now agentId tasks with
  | none =>
    obtain ⟨t, hmem, helig⟩ := h
    exact absurd helig (by simp [selectEligible_none hsel t hmem])
  | some t => exact ⟨t, rfl⟩

/-- Unpack the eligibility predicate into its three conjuncts. -/
theorem eligibleTask_iff (now : Nat) (agentId : String) (t : Task) :
    eligibleTask now agentId t = true ↔
      t.agentId = agentId ∧ t.status = TaskStatus.queued ∧
        ∀ m, t.nextRunAt = some m → m ≤ now := by
  simp only [eligibleTask, Bool.and_eq_true, beq_iff_eq]
  constructor
  · rintro ⟨⟨ha, hs⟩, hn⟩
    refine ⟨ha, hs, ?_⟩
    intro m hm
    rw [hm] at hn
    simpa using hn
  · rintro ⟨ha, hs, hn⟩
    refine ⟨⟨ha, hs⟩, ?_⟩
    cases hm : t.nextRunAt with
    | none => simp
    | some m => simpa using hn m hm

/-! ## C1 — claimNext -/

/-- C1: when the store holds at least one eligible task for the agent
(status `queued`, `next_run_at` unset or ≤ now), `claimNext` returns the
eligible task with the lowest priority value, tie-broken by earliest
creation time (so equal-priority tasks come out in creation order), returned
with status `running` and updated to `running` in the store; the underlying
row always has status `queued` and no future `next_run_at`. -/
theorem claimNext_correct (now : Nat) (agentId : String) (tasks : List Task)
    (h : ∃ t ∈ tasks, eligibleTask now agentId t = true) :
    ∃ t, t ∈ tasks ∧
      t.agentId = agentId ∧
      t.status = TaskStatus.queued ∧
      (∀ m, t.nextRunAt = some m → m ≤ now) ∧
      (∀ u ∈ tasks, eligibleTask now agentId u = true →
        t.priority < u.priority ∨ (t.priority = u.priority ∧ t.createdAt ≤ u.createdAt)) ∧
      (claimNext now agentId tasks).1 = some { t with status := TaskStatus.running } ∧
      (claimNext now agentId tasks).2 = tasks.map (fun u =>
        if u.id = t.id then { u with status := TaskStatus.running, updatedAt := now } else u) := by
  obtain ⟨t, hsel⟩ := selectEligible_isSome h
  obtain ⟨hmem, helig, hmin⟩ := selectEligible_spec hsel
  obtain ⟨ha, hs, hn⟩ := (eligibleTask_iff now agentId t).mp helig
  refine ⟨t, hmem, ha, hs, hn, ?_, ?_, ?_⟩
  · intro u hu hue
    exact (priBefore_false_iff u t).mp (hmin u hu hue)
  · simp [claimNext, hsel]
  · simp [claimNext, hsel]

/-- Concrete claim scenario used by the `claimNext` witness: two priorities,
one task with a future `next_run_at`, two tasks tied on priority 2. -/
def tasksC1 : List Task :=
  [ { id := "a", agentId := "A", status := TaskStatus.queued, priority := 3,
      payload := { goal := "g1" }, createdAt := 10, updatedAt := 10 },
    { id := "b", agentId := "A", status := TaskStatus.queued, priority := 1,
      payload := { goal := "g2" }, nextRunAt := some 500, createdAt := 20, updatedAt := 20 },
    { id := "c", agentId := "A", status := TaskStatus.queued, priority := 2,
      payload := { goal := "g3" }, createdAt := 30, updatedAt := 30 },
    { id := "d", agentId := "A", status := TaskStatus.queued, priority := 2,
      payload := { goal := "g4" }, createdAt := 5, updatedAt := 5 } ]

/-- Witness for C1 at the concrete store `tasksC1` and `now = 100`. -/
theorem claimNext_correct_witness :
    ∃ t, t ∈ tasksC1 ∧
      t.agentId = "A" ∧
      t.status = TaskStatus.queued ∧
      (∀ m, t.nextRunAt = some m → m ≤ 100) ∧
      (∀ u ∈ tasksC1, eligibleTask 100 "A" u = true →
        t.priority < u.priority ∨ (t.priority = u.priority ∧ t.createdAt ≤ u.createdAt)) ∧
      (claimNext 100 "A" tasksC1).1 = some { t with status := TaskStatus.running } ∧
      (claimNext 100 "A" tasksC1).2 = tasksC1.map (fun u =>
        if u.id = t.id then { u with status := TaskStatus.running, updatedAt := 100 } else u) :=
  claimNext_correct 100 "A" tasksC1 (by decide)

/-! ## C8 — stale-running startup reset -/

/-- C8: on initialization, every task whose status is `running` and whose
last update is older than the 5-minute stale threshold is reset to `queued`
with reason "reset after stale run" and a fresh update timestamp; the reset
happens exactly once (a later startup scan leaves the reset task unchanged);
every other task is untouched by the scan. -/
theorem staleReset_once (now i : Nat) (tasks : List Task) :
    ∀ t, tasks[i]? = some t →
      ((t.status = TaskStatus.running ∧ t.updatedAt < now - STALE_RUNNING_MS) →
        (staleResetScan now tasks)[i]? =
          some { t with status := TaskStatus.queued,
                        statusReason := some "reset after stale run",
                        updatedAt := now } ∧
        ∀ now2, (staleResetScan now2 (staleResetScan now tasks))[i]? =
          (staleResetScan now tasks)[i]?) ∧
      (¬(t.status = TaskStatus.running ∧ t.updatedAt < now - STALE_RUNNING_MS) →
        (staleResetScan now tasks)[i]? = some t) := by
  intro t ht
  constructor
  · intro hcond
    have h1 : (staleResetScan now tasks)[i]? =
        some { t with status := TaskStatus.queued,
                      statusReason := some "reset after stale run",
                      updatedAt := now } := by
      simp [staleResetScan, List.getElem?_map, ht, staleResetTask, hcond]
    refine ⟨h1, ?_⟩
    intro now2
    generalize hX : staleResetScan now tasks = X at h1 ⊢
    rw [show staleResetScan now2 X = X.map (staleResetTask now2) from rfl,
      List.getElem?_map, h1]
    simp [staleResetTask]
  · intro hcond
    simp [staleResetScan, List.getElem?_map, ht, staleResetTask, hcond]

/-- A stale running task (`updatedAt` far in the past of `now = 10^9`). -/
def taskStale : Task :=
  { id := "s", agentId := "A", status := TaskStatus.running, priority := 3,
    payload := { goal := "g1" }, createdAt := 0, updatedAt := 100 }

/-- A running task updated moments before `now = 10^9` (not stale). -/
def taskFresh : Task :=
  { id := "f", agentId := "A", status := TaskStatus.running, priority := 3,
    payload := { goal := "g2" }, createdAt := 0, updatedAt := 999999999 }

/-- Concrete store for the C8 witness. -/
def tasksC8 : List Task := [taskStale, taskFresh]

/-- Witness for C8: the stale task at index 0 of `tasksC8` is reset exactly
once; the fresh running task at index 1 is untouched. -/
theorem staleReset_once_witness :
    ((staleResetScan 1000000000 tasksC8)[0]? =
      some { taskStale with status := TaskStatus.queued,
                            statusReason := some "reset after stale run",
                            updatedAt := 1000000000 } ∧
     ∀ now2, (staleResetScan now2 (staleResetScan 1000000000 tasksC8))[0]? =
       (staleResetScan 1000000000 tasksC8)[0]?) ∧
    (staleResetScan 1000000000 tasksC8)[1]? = some taskFresh := by
  refine ⟨(staleReset_once 1000000000 0 tasksC8 taskStale (by decide)).1 (by decide), ?_⟩
  exact (staleReset_once 1000000000 1 tasksC8 taskFresh (by decide)).2 (by decide)

/-! ## C10 — updateStatus frame condition -/

/-- C10: `updateStatus(taskId, status, reason)` rewrites only the `status`,
`status_reason` and `updated_at` columns of the rows with the given id; every
other column of those rows, and every row with a different id, is unchanged
(and no row is added or removed). -/
theorem updateStatus_frame (now : Nat) (taskId : String) (status : TaskStatus)
    (reason : Option String) (tasks : List Task) (i : Nat) :
    (tasks[i]? = none → (updateStatus now taskId status reason tasks)[i]? = none) ∧
    ∀ t, tasks[i]? = some t →
      (t.id ≠ taskId → (updateStatus now taskId status reason tasks)[i]? = some t) ∧
      (t.id = taskId →
        (updateStatus now taskId status reason tasks)[i]? = some
          { t with status := status, statusReason := reason, updatedAt := now }) := by
  refine ⟨?_, ?_⟩
  · intro hnone
    simp [updateStatus, List.getElem?_map, hnone]
  · intro t ht
    refine ⟨?_, ?_⟩
    · intro hne
      simp [updateStatus, List.getElem?_map, ht, hne]
    · intro heq
      simp [updateStatus, List.getElem?_map, ht, heq]

/-- Witness for C10 on `tasksC1`: updating task "c" rewrites exactly its
three mutable columns and leaves task "a" alone. -/
theorem updateStatus_frame_witness :
    (updateStatus 200 "c" TaskStatus.failed (some "boom") tasksC1)[0]? = tasksC1[0]? ∧
    (updateStatus 200 "c" TaskStatus.failed (some "boom") tasksC1)[2]? =
      some { id := "c", agentId := "A", status := TaskStatus.failed, priority := 2,
             payload := { goal := "g3" }, statusReason := some "boom",
             createdAt := 30, updatedAt := 200 } := by
  constructor
  · have h := ((updateStatus_frame 200 "c" TaskStatus.failed (some "boom") tasksC1 0).2
      { id := "a", agentId := "A", status := TaskStatus.queued, priority := 3,
        payload := { goal := "g1" }, createdAt := 10, updatedAt := 10 } (by decide)).1
    rw [h (by decide)]
    decide
  · exact ((updateStatus_frame 200 "c" TaskStatus.failed (some "boom") tasksC1 2).2
      { id := "c", agentId := "A", status := TaskStatus.queued, priority := 2,
        payload := { goal := "g3" }, createdAt := 30, updatedAt := 30 } (by decide)).2 (by decide)

/-! ## C5 — classification of 429 failures -/

/-- Registry of a single freshly configured openai credential. -/
def khC5 : List KeyHealth := [{ provider := "openai", key := "k1" }]

/-- A rate-limit failure whose message mentions credits, as real 429 quota
errors do. -/
def errC5 : LLMError := { status := some 429, message := "insufficient credits" }

/-- A non-429, non-402/403 failure whose message mentions "quota". -/
def errC5b : LLMError := { status := some 500, message := "quota exceeded" }

/-- C5: evaluation of the code at the failing inputs.  An error with status
429 and message "insufficient credits" leaves the credential permanently
disabled with no cooldown set (because `isInsufficientCredits` is consulted
before `isRateLimit` and matches the message even though a status code is
present); an error with status 500 and message "quota exceeded" is likewise
disabled, showing message matching is not restricted to status-less errors. -/
theorem completeClassification_429_message_disables :
    (completeModel 1000 ["openai"] ["openai", "anthropic", "deepseek"]
      LLMCapability.reasoning (fun _ _ => Except.error errC5) khC5).health =
      [{ provider := "openai", key := "k1", cooldownUntil := none, disabled := true,
         lastError := some "insufficient credits" }] ∧
    (completeModel 1000 ["openai"] ["openai", "anthropic", "deepseek"]
      LLMCapability.reasoning (fun _ _ => Except.error errC5b) khC5).health =
      [{ provider := "openai", key := "k1", cooldownUntil := none, disabled := true,
         lastError := some "quota exceeded" }] ∧
    isRateLimit errC5 = true ∧ isInsufficientCredits errC5 = true ∧
    isInsufficientCredits errC5b = true := by
  decide

/-! ## C7 — permanently disabled credentials never come back -/

/-- The invariant "every registry entry holding credential `c` is
permanently disabled". -/
def DisabledInv (c : String) (kh : List KeyHealth) : Prop :=
  ∀ k ∈ kh, k.key = c → k.disabled = true

/-- Members of `markFirst p f kh` are old members or the image of an old
member satisfying `p`. -/
theorem mem_markFirst {p : KeyHealth → Bool} {f : KeyHealth → KeyHealth} :
    ∀ {kh : List KeyHealth} {e : KeyHealth}, e ∈ markFirst p f kh →
      e ∈ kh ∨ ∃ e0 ∈ kh, p e0 = true ∧ e = f e0
  | [], e, h => by cases h
  | k :: ks, e, h => by
    rw [markFirst] at h
    by_cases hp : p k = true
    · rw [if_pos hp] at h
      rcases List.mem_cons.mp h with rfl | h
      · exact Or.inr ⟨k, List.mem_cons_self _ _, hp, rfl⟩
      · exact Or.inl (List.mem_cons_of_mem _ h)
    · rw [if_neg hp] at h
      rcases List.mem_cons.mp h with rfl | h
      · exact Or.inl (List.mem_cons_self _ _)
      · rcases mem_markFirst h with h | ⟨e0, he0, hpe0, rfl⟩
        · exact Or.inl (List.mem_cons_of_mem _ h)
        · exact Or.inr ⟨e0, List.mem_cons_of_mem _ he0, hpe0, rfl⟩

/-- `markRateLimit` touches neither keys nor the disabled flag, so it
preserves `DisabledInv`. -/
theorem disabledInv_markRateLimit {c : String} {kh : List KeyHealth}
    (h : DisabledInv c kh) (now : Nat) (p k : String) :
    DisabledInv c (markRateLimit now p k kh) := by
  intro e he hkey
  rcases mem_markFirst he with he | ⟨e0, he0, _, rfl⟩
  · exact h e he hkey
  · exact h e0 he0 hkey

/-- `markDisabled` only ever sets the disabled flag, so it preserves
`DisabledInv`. -/
theorem disabledInv_markDisabled {c : String} {kh : List KeyHealth}
    (h : DisabledInv c kh) (p k reason : String) :
    DisabledInv c (markDisabled p k reason kh) := by
  intro e he hkey
  rcases mem_markFirst he with he | ⟨e0, he0, _, rfl⟩
  · exact h e he hkey
  · rfl

/-- Failure classification preserves `DisabledInv`. -/
theorem disabledInv_applyFailure {c : String} {kh : List KeyHealth}
    (h : DisabledInv c kh) (now : Nat) (p k : String) (e : LLMError) :
    DisabledInv c (applyFailure now p k e kh) := by
  rw [applyFailure]
  by_cases h1 : isInsufficientCredits e = true
  · rw [if_pos h1]; exact disabledInv_markDisabled h p k e.message
  · rw [if_neg h1]
    by_cases h2 : isRateLimit e = true
    · rw [if_pos h2]; exact disabledInv_markRateLimit h now p k
    · rw [if_neg h2]; exact h

/-- The key loop of `complete()` preserves `DisabledInv`. -/
theorem disabledInv_tryKeys (now : Nat)
    (att : String → String → Except LLMError LLMResponse) (p c : String) :
    ∀ (keys : List String) (a : Nat) (last : Option LLMError) (kh : List KeyHealth),
      DisabledInv c kh → DisabledInv c (tryKeys now att p keys a last kh).2.2.2
  | [], _, _, kh, hinv => by simpa [tryKeys] using hinv
  | key :: rest, a, last, kh, hinv => by
    rw [tryKeys]
    by_cases h3 : MAX_RETRIES ≤ a
    · rw [if_pos h3]; exact hinv
    · rw [if_neg h3]
      cases hatt : att p key with
      | ok r => simpa using hinv
      | error e =>
        simpa using disabledInv_tryKeys now att p c rest (a + 1) (some e)
          (applyFailure now p key e kh) (disabledInv_applyFailure hinv now p key e)

/-- The provider loop of `complete()` preserves `DisabledInv`. -/
theorem disabledInv_tryProviders (now : Nat)
    (att : String → String → Except LLMError LLMResponse)
    (cap : LLMCapability) (clients : List String) (c : String) :
    ∀ (porder : List String) (a : Nat) (last : Option LLMError) (kh : List KeyHealth),
      DisabledInv c kh →
      DisabledInv c (tryProviders now att cap clients porder a last kh).2.2.2
  | [], _, _, kh, hinv => by simpa [tryProviders] using hinv
  | p :: ps, a, last, kh, hinv => by
    rw [tryProviders]
    by_cases h3 : MAX_RETRIES ≤ a
    · rw [if_pos h3]; exact hinv
    · rw [if_neg h3]
      by_cases hemb : cap = LLMCapability.embeddings
      · rw [if_pos hemb]
        exact disabledInv_tryProviders now att cap clients c ps a last kh hinv
      · rw [if_neg hemb]
        by_cases hcl : (!clients.contains p) = true
        · rw [if_pos hcl]
          exact disabledInv_tryProviders now att cap clients c ps a last kh hinv
        · rw [if_neg hcl]
          have hkeys := disabledInv_tryKeys now att p c
            (healthyKeysFor now p kh) a last kh hinv
          cases htk : tryKeys now att p (healthyKeysFor now p kh) a last kh with
          | mk r rest3 =>
            obtain ⟨a', l', kh'⟩ := rest3
            rw [htk] at hkeys
            cases r with
            | some resp => simp only [htk]; exact hkeys
            | none =>
              simp only [htk]
              exact disabledInv_tryProviders now att cap clients c ps a' l' kh' hkeys

/-- A full `complete()` call preserves `DisabledInv`. -/
theorem disabledInv_completeModel {c : String} {kh : List KeyHealth}
    (h : DisabledInv c kh) (now : Nat) (porder clients : List String)
    (cap : LLMCapability) (att : String → String → Except LLMError LLMResponse) :
    DisabledInv c (completeModel now porder clients cap att kh).health := by
  have := disabledInv_tryProviders now att cap clients c porder 0 none kh h
  rw [completeModel]
  cases htp : tryProviders now att cap clients porder 0 none kh with
  | mk r rest3 =>
    obtain ⟨a', l', kh'⟩ := rest3
    rw [htp] at this
    cases r with
    | some resp => exact this
    | none => exact this

/-- If every entry holding credential `c` is disabled, `c` is not returned by
`healthyKeysFor`, at any time and for any provider. -/
theorem disabled_not_healthy {c : String} {kh : List KeyHealth}
    (hall : DisabledInv c kh) (now : Nat) (provider : String) :
    c ∉ healthyKeysFor now provider kh := by
  intro hc
  simp only [healthyKeysFor, List.mem_map, List.mem_filter] at hc
  obtain ⟨k, ⟨hk, hprop⟩, hkey⟩ := hc
  have hdis := hall k hk hkey
  simp [hdis] at hprop

/-- C7: once a credential is permanently disabled (every registry entry
carrying it has the disabled flag), `healthyKeysFor` never returns it again
— at any later time, so in particular after any cooldown it carries has
expired — and every subsequent `complete()` dispatch preserves this: the
registry it leaves behind still has the credential disabled and still never
hands it out. -/
theorem disabled_credential_never_returns (kh : List KeyHealth) (c : String)
    (hall : DisabledInv c kh) :
    (∀ now provider, c ∉ healthyKeysFor now provider kh) ∧
    ∀ (now : Nat) (porder clients : List String) (cap : LLMCapability)
      (att : String → String → Except LLMError LLMResponse),
      DisabledInv c (completeModel now porder clients cap att kh).health ∧
      ∀ (now2 : Nat) (provider : String),
        c ∉ healthyKeysFor now2 provider (completeModel now porder clients cap att kh).health := by
  refine ⟨fun now provider => disabled_not_healthy hall now provider, ?_⟩
  intro now porder clients cap att
  have hinv := disabledInv_completeModel hall now porder clients cap att
  exact ⟨hinv, fun now2 provider => disabled_not_healthy hinv now2 provider⟩

/-- Registry for the C7 witness: the disabled credential "bad" carries a
cooldown timestamp that has long expired at the probed times. -/
def khC7 : List KeyHealth :=
  [ { provider := "openai", key := "bad", cooldownUntil := some 10, disabled := true,
      lastError := some "insufficient credits" },
    { provider := "openai", key := "good" } ]

/-- Witness for C7: "bad" is not handed out at `now = 999999` (well past its
cooldown timestamp 10), and after a dispatch in which every attempt fails
with a plain 429, the registry still has "bad" disabled and still does not
hand it out. -/
theorem disabled_credential_never_returns_witness :
    ("bad" ∉ healthyKeysFor 999999 "openai" khC7) ∧
    DisabledInv "bad" (completeModel 5 ["openai"] ["openai", "anthropic", "deepseek"]
      LLMCapability.reasoning
      (fun _ _ => Except.error { status := some 429, message := "too many requests" })
      khC7).health ∧
    ("bad" ∉ healthyKeysFor 999999 "openai"
      (completeModel 5 ["openai"] ["openai", "anthropic", "deepseek"]
        LLMCapability.reasoning
        (fun _ _ => Except.error { status := some 429, message := "too many requests" })
        khC7).health) := by
  have h := disabled_credential_never_returns khC7 "bad"
    (by unfold DisabledInv; decide)
  have h2 := h.2 5 ["openai"] ["openai", "anthropic", "deepseek"]
    LLMCapability.reasoning
    (fun _ _ => Except.error { status := some 429, message := "too many requests" })
  exact ⟨h.1 999999 "openai", h2.1, h2.2 999999 "openai"⟩

/-! ## C6 — exhausting the budget on rate-limited credentials

Helper notions for reasoning about a dispatch in which every attempt fails. -/

/-- Is this entry in the cooldown state written by `markRateLimit` at `now`? -/
def cooledAt (now : Nat) (k : KeyHealth) : Bool :=
  k.cooldownUntil == some (now + RATE_LIMIT_COOLDOWN_MS)

/-- Number of registry entries in the `markRateLimit` cooldown state. -/
def cooledCnt (now : Nat) (kh : List KeyHealth) : Nat :=
  (kh.filter (cooledAt now)).length

/-- No two registry entries share a `(provider, key)` pair (the constructor
builds one entry per configured credential). -/
def pairsNodup (kh : List KeyHealth) : Prop :=
  (kh.map fun k => (k.provider, k.key)).Nodup

/-- All entries of provider `p` are still in their freshly-configured state. -/
def freshFor (p : String) (kh : List KeyHealth) : Prop :=
  ∀ e ∈ kh, e.provider = p → e.disabled = false ∧ e.cooldownUntil = none

/-- Every entry is untouched or merely cooled at `now`: the only mutations a
run of pure rate-limit failures can apply. -/
def MixedInv (now : Nat) (kh : List KeyHealth) : Prop :=
  ∀ k ∈ kh, k.disabled = false ∧
    (k.cooldownUntil = none ∨ k.cooldownUntil = some (now + RATE_LIMIT_COOLDOWN_MS))

/-- Healthy-credential count the provider loop can still see, summed in
priority order over providers with a registered client. -/
def availFor (now : Nat) (clients : List String) (kh : List KeyHealth) :
    List String → Nat
  | [] => 0
  | p :: ps =>
    (if (!clients.contains p) = true then 0 else (healthyKeysFor now p kh).length) +
      availFor now clients kh ps

/-- The state fold produced by trying (and cooling) the keys of provider `p`
in order. -/
def coolKeys (now : Nat) (p : String) (keys : List String) (kh : List KeyHealth) :
    List KeyHealth :=
  keys.foldl (fun s k => markRateLimit now p k s) kh

/-- `markFirst` preserves any projection the rewriting function preserves. -/
theorem map_markFirst {γ : Type} (g : KeyHealth → γ) {p : KeyHealth → Bool}
    {f : KeyHealth → KeyHealth} (hf : ∀ x, g (f x) = g x) :
    ∀ kh : List KeyHealth, (markFirst p f kh).map g = kh.map g
  | [] => rfl
  | k :: ks => by
    rw [markFirst]
    by_cases hp : p k = true
    · rw [if_pos hp]; simp [hf k]
    · rw [if_neg hp]; simp [map_markFirst g hf ks]

/-- An element not matched by the predicate survives `markFirst` unchanged. -/
theorem mem_markFirst_of_pred_false {p : KeyHealth → Bool} {f : KeyHealth → KeyHealth} :
    ∀ {kh : List KeyHealth} {e : KeyHealth}, e ∈ kh → p e = false →
      e ∈ markFirst p f kh
  | [], e, he, _ => absurd he (List.not_mem_nil e)
  | k :: ks, e, he, hpe => by
    rw [markFirst]
    by_cases hp : p k = true
    · rw [if_pos hp]
      rcases List.mem_cons.mp he with rfl | he
      · rw [hpe] at hp; cases hp
      · exact List.mem_cons_of_mem _ he
    · rw [if_neg hp]
      rcases List.mem_cons.mp he with rfl | he
      · exact List.mem_cons_self _ _
      · exact List.mem_cons_of_mem _ (mem_markFirst_of_pred_false he hpe)

/-- `markRateLimit` on the unique fresh entry `(p, k)` cools exactly one more
entry. -/
theorem cooledCnt_markRateLimit (now : Nat) {p k : String} :
    ∀ {kh : List KeyHealth}, pairsNodup kh →
      ∀ {e : KeyHealth}, e ∈ kh → e.provider = p → e.key = k →
        e.cooldownUntil = none →
        cooledCnt now (markRateLimit now p k kh) = cooledCnt now kh + 1
  | [], _, e, he, _, _, _ => absurd he (List.not_mem_nil e)
  | h :: t, hpairs, e, he, hp, hk, hc => by
    rw [markRateLimit, markFirst]
    by_cases hph : (h.provider == p && h.key == k) = true
    · rw [if_pos hph]
      have hpair : h.provider = p ∧ h.key = k := by
        simpa [Bool.and_eq_true, beq_iff_eq] using hph
      have hhe : h = e := by
        rcases List.mem_cons.mp he with rfl | hmem
        · rfl
        · exfalso
          have hnod := hpairs
          rw [pairsNodup, List.map_cons, List.nodup_cons] at hnod
          exact hnod.1 (by
            rw [hpair.1, hpair.2, ← hp, ← hk]
            exact List.mem_map_of_mem _ hmem)
      subst hhe
      simp [cooledCnt, List.filter, cooledAt, hc]
    · rw [if_neg hph]
      have hne : e ≠ h := by
        intro heq
        apply hph
        rw [← heq]
        simp [hp, hk]
      have hmem : e ∈ t := by
        rcases List.mem_cons.mp he with rfl | hmem
        · exact absurd rfl hne
        · exact hmem
      have htail : pairsNodup t := by
        have hnod := hpairs
        rw [pairsNodup, List.map_cons, List.nodup_cons] at hnod
        exact hnod.2
      have ih := cooledCnt_markRateLimit now htail hmem hp hk hc
      rw [markRateLimit] at ih
      rw [cooledCnt, cooledCnt, List.filter_cons, List.filter_cons]
      rw [cooledCnt, cooledCnt] at ih
      cases hch : cooledAt now h
      · simpa [hch] using ih
      · simp only [hch, if_true, List.length_cons]
        omega

/-- `markRateLimit` preserves the `(provider, key, disabled)` projection of
the registry. -/
theorem map_markRateLimit (now : Nat) (p k : String) (kh : List KeyHealth) :
    (markRateLimit now p k kh).map (fun x => (x.provider, x.key, x.disabled)) =
      kh.map (fun x => (x.provider, x.key, x.disabled)) := by
  rw [markRateLimit]
  exact map_markFirst (fun x => (x.provider, x.key, x.disabled))
    (f := fun x => { x with cooldownUntil := some (now + RATE_LIMIT_COOLDOWN_MS),
                            lastError := some "rate-limited" })
    (fun x => rfl) kh

/-- Members of a `markRateLimit` result: an old member, or an old member of
provider `p` with its cooldown rewritten. -/
theorem mem_markRateLimit {now : Nat} {p k : String} {kh : List KeyHealth}
    {e : KeyHealth} (he : e ∈ markRateLimit now p k kh) :
    e ∈ kh ∨ ∃ e0 ∈ kh, e0.provider = p ∧ e0.disabled = e.disabled ∧
      e.cooldownUntil = some (now + RATE_LIMIT_COOLDOWN_MS) := by
  rcases mem_markFirst he with he | ⟨e0, he0, hpe0, rfl⟩
  · exact Or.inl he
  · refine Or.inr ⟨e0, he0, ?_, rfl, rfl⟩
    have := (Bool.and_eq_true _ _).mp hpe0
    exact beq_iff_eq.mp this.1

/-- For a different provider, `markRateLimit` does not change the healthy
key list. -/
theorem healthyKeysFor_markRateLimit_ne {q p : String} (hqp : q ≠ p)
    (now now2 : Nat) (k : String) :
    ∀ kh : List KeyHealth,
      healthyKeysFor now2 q (markRateLimit now p k kh) = healthyKeysFor now2 q kh
  | [] => rfl
  | h :: t => by
    rw [markRateLimit, markFirst]
    by_cases hph : (h.provider == p && h.key == k) = true
    · rw [if_pos hph]
      have hp : h.provider = p := by
        have := (Bool.and_eq_true _ _).mp hph
        exact beq_iff_eq.mp this.1
      have hnq : (h.provider == q) = false := by
        simp [hp, Ne.symm hqp]
      simp [healthyKeysFor, List.filter, hnq]
    · rw [if_neg hph]
      have ih := healthyKeysFor_markRateLimit_ne hqp now now2 k t
      rw [markRateLimit] at ih
      simp only [healthyKeysFor, List.filter] at ih ⊢
      cases hh : (h.provider == q && !h.disabled &&
          match h.cooldownUntil with
          | none => true
          | some c => decide (c ≤ now2)) <;> simp [ih]

/-- Members of a `markRateLimit` result: unchanged old members, or an old
member of provider `p` with only its cooldown and last-error rewritten. -/
theorem mem_markRateLimit' {now : Nat} {p k : String} {kh : List KeyHealth}
    {e : KeyHealth} (he : e ∈ markRateLimit now p k kh) :
    e ∈ kh ∨ ∃ e0 ∈ kh, e.provider = e0.provider ∧ e0.provider = p ∧
      e.disabled = e0.disabled ∧
      e.cooldownUntil = some (now + RATE_LIMIT_COOLDOWN_MS) := by
  rcases mem_markFirst he with he | ⟨e0, he0, hpe0, rfl⟩
  · exact Or.inl he
  · refine Or.inr ⟨e0, he0, rfl, ?_, rfl, rfl⟩
    have := (Bool.and_eq_true _ _).mp hpe0
    exact beq_iff_eq.mp this.1

/-- `coolKeys` preserves any projection that ignores the cooldown and
last-error fields. -/
theorem map_coolKeys {γ : Type} (g : KeyHealth → γ)
    (hg : ∀ (x : KeyHealth) (c : Option Nat) (l : Option String),
      g { x with cooldownUntil := c, lastError := l } = g x) (now : Nat) (p : String) :
    ∀ (keys : List String) (kh : List KeyHealth),
      (coolKeys now p keys kh).map g = kh.map g
  | [], kh => rfl
  | k :: ks, kh => by
    rw [coolKeys, List.foldl_cons]
    have hstep : (markRateLimit now p k kh).map g = kh.map g := by
      rw [markRateLimit]
      exact map_markFirst g
        (f := fun x => { x with cooldownUntil := some (now + RATE_LIMIT_COOLDOWN_MS),
                                lastError := some "rate-limited" })
        (fun x => hg x _ _) kh
    have hrec := map_coolKeys g hg now p ks (markRateLimit now p k kh)
    rw [coolKeys] at hrec
    rw [hrec, hstep]

/-- Members of a `coolKeys` result are old members or carry provider `p`. -/
theorem mem_coolKeys {now : Nat} {p : String} :
    ∀ (keys : List String) (kh : List KeyHealth) {e : KeyHealth},
      e ∈ coolKeys now p keys kh → e ∈ kh ∨ e.provider = p
  | [], _, _, he => Or.inl he
  | k :: ks, kh, e, he => by
    rw [coolKeys, List.foldl_cons] at he
    have hrec := @mem_coolKeys now p ks (markRateLimit now p k kh) e
    rw [coolKeys] at hrec
    rcases hrec he with hmem | hp
    · rcases mem_markRateLimit' hmem with hmem | ⟨e0, _, hpe, hp0, _, _⟩
      · exact Or.inl hmem
      · exact Or.inr (hpe.trans hp0)
    · exact Or.inr hp

/-- A fold of rate-limit marks preserves `MixedInv`. -/
theorem mixedInv_coolKeys {now : Nat} {p : String} :
    ∀ (keys : List String) {kh : List KeyHealth},
      MixedInv now kh → MixedInv now (coolKeys now p keys kh)
  | [], _, hinv => hinv
  | k :: ks, kh, hinv => by
    rw [coolKeys, List.foldl_cons]
    have hstep : MixedInv now (markRateLimit now p k kh) := by
      intro x hx
      rcases mem_markRateLimit' hx with hx | ⟨e0, he0, _, _, hd, hc⟩
      · exact hinv x hx
      · exact ⟨hd.trans (hinv e0 he0).1, Or.inr hc⟩
    have hrec := @mixedInv_coolKeys now p ks (markRateLimit now p k kh) hstep
    rw [coolKeys] at hrec
    exact hrec

/-- Cooling keys of provider `p` leaves entries of any other provider in
their fresh state. -/
theorem freshFor_coolKeys {now : Nat} {p q : String} (hqp : q ≠ p)
    (keys : List String) (kh : List KeyHealth) (hq : freshFor q kh) :
    freshFor q (coolKeys now p keys kh) := by
  intro e he hqe
  rcases mem_coolKeys keys kh he with he | hpe
  · exact hq e he hqe
  · exact absurd (hqe ▸ hpe) hqp

/-- Cooling keys of provider `p` does not change the healthy key list of a
different provider. -/
theorem healthyKeysFor_coolKeys_ne {q p : String} (hqp : q ≠ p) (now now2 : Nat) :
    ∀ (keys : List String) (kh : List KeyHealth),
      healthyKeysFor now2 q (coolKeys now p keys kh) = healthyKeysFor now2 q kh
  | [], _ => rfl
  | k :: ks, kh => by
    rw [coolKeys, List.foldl_cons]
    have hrec := healthyKeysFor_coolKeys_ne hqp now now2 ks (markRateLimit now p k kh)
    rw [coolKeys] at hrec
    rw [hrec, healthyKeysFor_markRateLimit_ne hqp now now2 k kh]

/-- `availFor` only looks at healthy key lists, so it is stable under
registry changes that preserve them. -/
theorem availFor_congr {now : Nat} {clients : List String}
    {kh kh2 : List KeyHealth} :
    ∀ {ps : List String},
      (∀ q ∈ ps, healthyKeysFor now q kh2 = healthyKeysFor now q kh) →
      availFor now clients kh2 ps = availFor now clients kh ps
  | [], _ => rfl
  | q :: ps, hall => by
    rw [availFor, availFor,
      availFor_congr (fun r hr => hall r (List.mem_cons_of_mem _ hr)),
      hall q (List.mem_cons_self _ _)]

/-- Every healthy key names a registry entry of that provider, not disabled,
with that key. -/
theorem mem_healthyKeysFor {now : Nat} {p k : String} {kh : List KeyHealth}
    (h : k ∈ healthyKeysFor now p kh) :
    ∃ e ∈ kh, e.provider = p ∧ e.key = k ∧ e.disabled = false := by
  simp only [healthyKeysFor, List.mem_map, List.mem_filter,
    Bool.and_eq_true, beq_iff_eq] at h
  obtain ⟨e, ⟨he, ⟨hp, hd⟩, _⟩, hk⟩ := h
  exact ⟨e, he, hp, hk, by simpa using hd⟩

/-- With pairwise-distinct `(provider, key)` pairs, the healthy key list of a
provider has no duplicate keys. -/
theorem healthyKeysFor_nodup {now : Nat} {p : String} {kh : List KeyHealth}
    (hpairs : pairsNodup kh) : (healthyKeysFor now p kh).Nodup := by
  have hsub : ((kh.filter fun k =>
      k.provider == p && !k.disabled &&
        (match k.cooldownUntil with
         | none => true
         | some c => c ≤ now)).map fun x => (x.provider, x.key)).Sublist
      (kh.map fun x => (x.provider, x.key)) :=
    (List.filter_sublist kh).map _
  have hnd : ((kh.filter fun k =>
      k.provider == p && !k.disabled &&
        (match k.cooldownUntil with
         | none => true
         | some c => c ≤ now)).map fun x => (x.provider, x.key)).Nodup :=
    hpairs.sublist hsub
  rw [healthyKeysFor]
  have hmapeq : (kh.filter fun k =>
      k.provider == p && !k.disabled &&
        (match k.cooldownUntil with
         | none => true
         | some c => c ≤ now)).map (fun k => k.key) =
      ((kh.filter fun k =>
        k.provider == p && !k.disabled &&
          (match k.cooldownUntil with
           | none => true
           | some c => c ≤ now)).map fun x => (x.provider, x.key)).map Prod.snd := by
    rw [List.map_map]
    rfl
  rw [hmapeq]
  refine List.Nodup.map_on ?_ hnd
  intro a ha b hb hab
  obtain ⟨x, hx, rfl⟩ := List.mem_map.mp ha
  obtain ⟨y, hy, rfl⟩ := List.mem_map.mp hb
  have hxp : x.provider = p := by
    have := (List.mem_filter.mp hx).2
    have := (Bool.and_eq_true _ _).mp ((Bool.and_eq_true _ _).mp this).1
    exact beq_iff_eq.mp this.1
  have hyp : y.provider = p := by
    have := (List.mem_filter.mp hy).2
    have := (Bool.and_eq_true _ _).mp ((Bool.and_eq_true _ _).mp this).1
    exact beq_iff_eq.mp this.1
  simp only [Prod.mk.injEq]
  exact ⟨hxp.trans hyp.symm, hab⟩

/-- `coolKeys` preserves the `(provider, key)` projection of the registry. -/
theorem pairs_coolKeys (now : Nat) (p : String) (keys : List String)
    (kh : List KeyHealth) :
    (coolKeys now p keys kh).map (fun x => (x.provider, x.key)) =
      kh.map (fun x => (x.provider, x.key)) :=
  map_coolKeys (fun x => (x.provider, x.key)) (fun _ _ _ => rfl) now p keys kh

/-- `coolKeys` preserves pair distinctness. -/
theorem pairsNodup_coolKeys {now : Nat} {p : String} {keys : List String}
    {kh : List KeyHealth} (hpairs : pairsNodup kh) :
    pairsNodup (coolKeys now p keys kh) := by
  rw [pairsNodup, pairs_coolKeys]
  exact hpairs

/-- Cooling a list of distinct fresh keys of provider `p` cools exactly that
many entries. -/
theorem cooledCnt_coolKeys (now : Nat) (p : String) :
    ∀ (keys : List String) (kh : List KeyHealth), pairsNodup kh → keys.Nodup →
      (∀ k ∈ keys, ∃ e ∈ kh, e.provider = p ∧ e.key = k ∧ e.cooldownUntil = none) →
      cooledCnt now (coolKeys now p keys kh) = cooledCnt now kh + keys.length
  | [], kh, _, _, _ => rfl
  | k :: ks, kh, hpairs, hnd, hkeys => by
    rw [coolKeys, List.foldl_cons]
    obtain ⟨e, he, hep, hek, hec⟩ := hkeys k (List.mem_cons_self _ _)
    have hstep : cooledCnt now (markRateLimit now p k kh) = cooledCnt now kh + 1 :=
      cooledCnt_markRateLimit now hpairs he hep hek hec
    have hndks : ks.Nodup := (List.nodup_cons.mp hnd).2
    have hknotin : k ∉ ks := (List.nodup_cons.mp hnd).1
    have hkeys' : ∀ k2 ∈ ks, ∃ e2 ∈ markRateLimit now p k kh,
        e2.provider = p ∧ e2.key = k2 ∧ e2.cooldownUntil = none := by
      intro k2 hk2
      obtain ⟨e2, he2, hep2, hek2, hec2⟩ := hkeys k2 (List.mem_cons_of_mem _ hk2)
      refine ⟨e2, ?_, hep2, hek2, hec2⟩
      rw [markRateLimit]
      apply mem_markFirst_of_pred_false he2
      have hne : k2 ≠ k := fun h => hknotin (h ▸ hk2)
      simp [hek2, hne]
    have hrec := cooledCnt_coolKeys now p ks (markRateLimit now p k kh)
      (by rw [pairsNodup, show markRateLimit now p k kh = coolKeys now p [k] kh from rfl,
            pairs_coolKeys]
          exact hpairs)
      hndks hkeys'
    rw [coolKeys] at hrec
    rw [hrec, hstep, List.length_cons]
    omega

/-- Closed form of the key loop when every attempt fails with the same
pure-rate-limit error: no response, the budget-truncated attempt count, the
error as last failure whenever an attempt was made, and a cooled prefix of
the key list. -/
theorem tryKeys_allFail (now : Nat)
    {att : String → String → Except LLMError LLMResponse} (p : String) {e : LLMError}
    (herr : ∀ q k2, att q k2 = Except.error e)
    (hic : isInsufficientCredits e = false) (hrl : isRateLimit e = true) :
    ∀ (keys : List String) (a : Nat) (last : Option LLMError) (kh : List KeyHealth),
      a ≤ MAX_RETRIES →
      tryKeys now att p keys a last kh =
        (none, min MAX_RETRIES (a + keys.length),
         if a < MAX_RETRIES ∧ keys ≠ [] then some e else last,
         coolKeys now p (keys.take (MAX_RETRIES - a)) kh)
  | [], a, last, kh, ha => by
    simp [tryKeys, coolKeys, Nat.min_eq_right ha]
  | key :: rest, a, last, kh, ha => by
    rw [tryKeys]
    by_cases h3 : MAX_RETRIES ≤ a
    · rw [if_pos h3]
      have haM : a = MAX_RETRIES := le_antisymm ha h3
      subst haM
      simp [coolKeys, Nat.min_eq_left (Nat.le_add_right _ _), Nat.sub_self]
    · rw [if_neg h3]
      have ha' : a < MAX_RETRIES := Nat.lt_of_not_le h3
      simp only [herr p key]
      rw [applyFailure, if_neg (by simp [hic]), if_pos hrl]
      rw [tryKeys_allFail now p herr hic hrl rest (a + 1) (some e)
        (markRateLimit now p key kh) (by omega)]
      have hmin : min MAX_RETRIES (a + 1 + rest.length) =
          min MAX_RETRIES (a + (key :: rest).length) := by
        rw [List.length_cons]; omega
      have hif : (if a + 1 < MAX_RETRIES ∧ rest ≠ [] then some e else some e) = some e :=
        ite_self _
      have hcool : coolKeys now p (rest.take (MAX_RETRIES - (a + 1)))
          (markRateLimit now p key kh) =
          coolKeys now p ((key :: rest).take (MAX_RETRIES - a)) kh := by
        rw [show MAX_RETRIES - a = (MAX_RETRIES - (a + 1)) + 1 from by omega,
          List.take_succ_cons, coolKeys, coolKeys, List.foldl_cons]
      rw [hmin, hif, hcool, if_pos (show a < MAX_RETRIES ∧ key :: rest ≠ [] from
        ⟨ha', by simp⟩)]

/-- Closed form of the provider loop when every attempt fails with the same
pure-rate-limit error: no response; attempts grow by the healthy credentials
available in priority order, truncated at the budget; the last error is the
failure whenever an attempt was made; exactly one entry enters cooldown per
attempt; providers, keys and the mixed-state invariant are preserved. -/
theorem tryProviders_allFail (now : Nat)
    {att : String → String → Except LLMError LLMResponse}
    {cap : LLMCapability} (clients : List String) {e : LLMError}
    (hcap : cap ≠ LLMCapability.embeddings)
    (herr : ∀ q k2, att q k2 = Except.error e)
    (hic : isInsufficientCredits e = false) (hrl : isRateLimit e = true) :
    ∀ (porder : List String) (a : Nat) (last : Option LLMError) (kh : List KeyHealth),
      a ≤ MAX_RETRIES → porder.Nodup → pairsNodup kh →
      (∀ p ∈ porder, freshFor p kh) →
      (tryProviders now att cap clients porder a last kh).1 = none ∧
      (tryProviders now att cap clients porder a last kh).2.1 =
        min MAX_RETRIES (a + availFor now clients kh porder) ∧
      (tryProviders now att cap clients porder a last kh).2.2.1 =
        (if a < (tryProviders now att cap clients porder a last kh).2.1
         then some e else last) ∧
      cooledCnt now (tryProviders now att cap clients porder a last kh).2.2.2 =
        cooledCnt now kh + ((tryProviders now att cap clients porder a last kh).2.1 - a) ∧
      (tryProviders now att cap clients porder a last kh).2.2.2.map
        (fun x => (x.provider, x.key)) = kh.map (fun x => (x.provider, x.key)) ∧
      (MixedInv now kh → MixedInv now (tryProviders now att cap clients porder a last kh).2.2.2)
  | [], a, last, kh, ha, _, _, _ => by
    simp [tryProviders, availFor, Nat.min_eq_right ha]
  | p :: ps, a, last, kh, ha, hnd, hpairs, hfresh => by
    by_cases h3 : MAX_RETRIES ≤ a
    · have haM : a = MAX_RETRIES := le_antisymm ha h3
      subst haM
      have heq : tryProviders now att cap clients (p :: ps) MAX_RETRIES last kh =
          (none, MAX_RETRIES, last, kh) := by
        rw [tryProviders, if_pos (le_refl _)]
      rw [heq]
      refine ⟨rfl, by simp [Nat.min_eq_left (Nat.le_add_right _ _)], by simp, by simp,
        rfl, fun h => h⟩
    · have ha' : a < MAX_RETRIES := Nat.lt_of_not_le h3
      have hndps : ps.Nodup := (List.nodup_cons.mp hnd).2
      have hpnotin : p ∉ ps := (List.nodup_cons.mp hnd).1
      by_cases hcl : (!clients.contains p) = true
      · have heq : tryProviders now att cap clients (p :: ps) a last kh =
            tryProviders now att cap clients ps a last kh := by
          rw [tryProviders, if_neg h3, if_neg hcap, if_pos hcl]
        rw [heq]
        have hIH := tryProviders_allFail now clients hcap herr hic hrl ps a last kh
          ha hndps hpairs (fun q hq => hfresh q (List.mem_cons_of_mem _ hq))
        refine ⟨hIH.1, ?_, hIH.2.2.1, hIH.2.2.2.1, hIH.2.2.2.2.1, hIH.2.2.2.2.2⟩
        rw [hIH.2.1, availFor, if_pos hcl, Nat.zero_add]
      · have hkeq := tryKeys_allFail now p herr hic hrl (healthyKeysFor now p kh)
          a last kh ha
        have heq : tryProviders now att cap clients (p :: ps) a last kh =
            tryProviders now att cap clients ps
              (min MAX_RETRIES (a + (healthyKeysFor now p kh).length))
              (if a < MAX_RETRIES ∧ healthyKeysFor now p kh ≠ [] then some e else last)
              (coolKeys now p ((healthyKeysFor now p kh).take (MAX_RETRIES - a)) kh) := by
          rw [tryProviders, if_neg h3, if_neg hcap, if_neg hcl, hkeq]
        rw [heq]
        have hfreshp : freshFor p kh := hfresh p (List.mem_cons_self _ _)
        have ha1 : min MAX_RETRIES (a + (healthyKeysFor now p kh).length) ≤ MAX_RETRIES :=
          Nat.min_le_left _ _
        have hpairs1 : pairsNodup
            (coolKeys now p ((healthyKeysFor now p kh).take (MAX_RETRIES - a)) kh) :=
          pairsNodup_coolKeys hpairs
        have hfresh1 : ∀ q ∈ ps, freshFor q
            (coolKeys now p ((healthyKeysFor now p kh).take (MAX_RETRIES - a)) kh) :=
          fun q hq => freshFor_coolKeys
            (show q ≠ p from fun hqp => hpnotin (hqp ▸ hq)) _ kh
            (hfresh q (List.mem_cons_of_mem _ hq))
        have hIH := tryProviders_allFail now clients hcap herr hic hrl ps
          (min MAX_RETRIES (a + (healthyKeysFor now p kh).length))
          (if a < MAX_RETRIES ∧ healthyKeysFor now p kh ≠ [] then some e else last)
          (coolKeys now p ((healthyKeysFor now p kh).take (MAX_RETRIES - a)) kh)
          ha1 hndps hpairs1 hfresh1
        have havail : availFor now clients
            (coolKeys now p ((healthyKeysFor now p kh).take (MAX_RETRIES - a)) kh) ps =
            availFor now clients kh ps :=
          availFor_congr (fun q hq =>
            healthyKeysFor_coolKeys_ne
              (show q ≠ p from fun hqp => hpnotin (hqp ▸ hq)) now now _ kh)
        have hcnt1 : cooledCnt now
            (coolKeys now p ((healthyKeysFor now p kh).take (MAX_RETRIES - a)) kh) =
            cooledCnt now kh + ((healthyKeysFor now p kh).take (MAX_RETRIES - a)).length := by
          refine cooledCnt_coolKeys now p _ kh hpairs
            ((healthyKeysFor_nodup hpairs).sublist (List.take_sublist _ _)) ?_
          intro k hk
          obtain ⟨e2, he2, hep2, hek2, _⟩ :=
            mem_healthyKeysFor (List.mem_of_mem_take hk)
          exact ⟨e2, he2, hep2, hek2, (hfreshp e2 he2 hep2).2⟩
        have htlen : ((healthyKeysFor now p kh).take (MAX_RETRIES - a)).length =
            min (MAX_RETRIES - a) (healthyKeysFor now p kh).length :=
          List.length_take _ _
        refine ⟨hIH.1, ?_, ?_, ?_, ?_, ?_⟩
        · rw [hIH.2.1, havail, availFor, if_neg hcl]
          omega
        · rw [hIH.2.2.1, hIH.2.1, havail]
          by_cases hkey : healthyKeysFor now p kh = []
          · simp only [hkey, List.length_nil, Nat.add_zero, Nat.min_eq_right ha,
              ne_eq, not_true_eq_false, and_false, if_false]
          · have hL : 0 < (healthyKeysFor now p kh).length := List.length_pos.mpr hkey
            rw [if_pos (show a < MAX_RETRIES ∧ healthyKeysFor now p kh ≠ [] from
              ⟨ha', hkey⟩)]
            rw [ite_self]
            rw [if_pos (show a < min MAX_RETRIES
              (min MAX_RETRIES (a + (healthyKeysFor now p kh).length) +
                availFor now clients kh ps) from by omega)]
        · rw [hIH.2.2.2.1, hcnt1, hIH.2.1, havail, htlen]
          omega
        · rw [hIH.2.2.2.2.1, pairs_coolKeys]
        · intro hmix
          exact hIH.2.2.2.2.2 (mixedInv_coolKeys _ hmix)

/-- A registry with no cooldown timestamps has no cooled entries. -/
theorem cooledCnt_of_fresh {now : Nat} {kh : List KeyHealth}
    (h : ∀ k ∈ kh, k.cooldownUntil = none) : cooledCnt now kh = 0 := by
  rw [cooledCnt, List.filter_eq_nil_iff.mpr, List.length_nil]
  intro k hk
  simp [cooledAt, h k hk]

/-- Three freshly configured credentials across two providers. -/
def khC6 : List KeyHealth :=
  [ { provider := "openai", key := "k1" },
    { provider := "openai", key := "k2" },
    { provider := "anthropic", key := "k3" } ]

/-- A realistic provider 429: rate-limit status, quota-talking message. -/
def errQuota : LLMError :=
  { status := some 429, message := "You exceeded your current quota" }

/-- A 429 whose message mentions none of the credit keywords. -/
def errPlain : LLMError :=
  { status := some 429, message := "too many requests" }

/-- Every attempt fails with the plain rate-limit error. -/
def attPlain : String → String → Except LLMError LLMResponse :=
  fun _ _ => Except.error errPlain

/-- C6 (counterexample): with a budget of 3 and every credential's attempt
failing with a status-429 error whose message mentions "quota", `complete()`
does fail after exactly 3 attempts, but no tried credential is placed into
cooldown — all three are permanently disabled instead. -/
theorem complete_rateLimited_counterexample :
    (completeModel 1000 ["openai", "anthropic", "deepseek"]
      ["openai", "anthropic", "deepseek"] LLMCapability.reasoning
      (fun _ _ => Except.error errQuota) khC6).attempts = 3 ∧
    isRateLimit errQuota = true ∧
    (completeModel 1000 ["openai", "anthropic", "deepseek"]
      ["openai", "anthropic", "deepseek"] LLMCapability.reasoning
      (fun _ _ => Except.error errQuota) khC6).health =
      [ { provider := "openai", key := "k1", cooldownUntil := none, disabled := true,
          lastError := some "You exceeded your current quota" },
        { provider := "openai", key := "k2", cooldownUntil := none, disabled := true,
          lastError := some "You exceeded your current quota" },
        { provider := "anthropic", key := "k3", cooldownUntil := none, disabled := true,
          lastError := some "You exceeded your current quota" } ] := by
  decide

/-- C6 (amended): with a dispatch budget of 3, a freshly configured registry
holding at least 3 healthy credentials reachable in priority order, and every
attempt failing with one fixed status-429 error that message matching does
not classify as a credit error, `complete()` fails after exactly 3 attempts,
the aggregated error carries the last underlying failure, exactly 3
credentials are placed into the 60 s cooldown, no credential is disabled,
and providers/keys are otherwise untouched. -/
theorem complete_allRateLimited (now : Nat) (porder clients : List String)
    (cap : LLMCapability) (att : String → String → Except LLMError LLMResponse)
    (kh : List KeyHealth) (e : LLMError)
    (hcap : cap ≠ LLMCapability.embeddings)
    (herr : ∀ p k, att p k = Except.error e)
    (hrl : isRateLimit e = true) (hic : isInsufficientCredits e = false)
    (hnd : porder.Nodup) (hpairs : pairsNodup kh)
    (hfresh : ∀ k ∈ kh, k.disabled = false ∧ k.cooldownUntil = none)
    (hn : MAX_RETRIES ≤ availFor now clients kh porder) :
    (completeModel now porder clients cap att kh).result =
      Except.error { attempts := MAX_RETRIES, lastError := some e } ∧
    (completeModel now porder clients cap att kh).attempts = MAX_RETRIES ∧
    cooledCnt now (completeModel now porder clients cap att kh).health = MAX_RETRIES ∧
    (completeModel now porder clients cap att kh).health.map
      (fun x => (x.provider, x.key)) = kh.map (fun x => (x.provider, x.key)) ∧
    ∀ k ∈ (completeModel now porder clients cap att kh).health,
      k.disabled = false ∧
        (k.cooldownUntil = none ∨ k.cooldownUntil = some (now + RATE_LIMIT_COOLDOWN_MS)) := by
  have hfreshFor : ∀ p ∈ porder, freshFor p kh :=
    fun p _ e2 he2 _ => hfresh e2 he2
  have hL := tryProviders_allFail now clients hcap herr hic hrl porder 0 none kh
    (Nat.zero_le _) hnd hpairs hfreshFor
  cases htp : tryProviders now att cap clients porder 0 none kh with
  | mk r rest3 =>
    obtain ⟨a, l, kh'⟩ := rest3
    rw [htp] at hL
    obtain ⟨hr, haval, hlast, hcool, hmap, hmix⟩ := hL
    simp only at hr haval hlast hcool hmap
    subst hr
    have hA : a = MAX_RETRIES := by
      rw [haval, Nat.zero_add]
      exact Nat.min_eq_left hn
    subst hA
    have hl : l = some e := by
      rw [hlast, if_pos (show (0 : Nat) < MAX_RETRIES from by decide)]
    have hcm : completeModel now porder clients cap att kh =
        { result := Except.error { attempts := MAX_RETRIES, lastError := l },
          attempts := MAX_RETRIES, health := kh' } := by
      rw [completeModel, htp]
    rw [hcm]
    subst hl
    refine ⟨rfl, rfl, ?_, hmap, ?_⟩
    · rw [hcool, cooledCnt_of_fresh (fun k hk => (hfresh k hk).2)]
      omega
    · exact hmix (fun k hk => ⟨(hfresh k hk).1, Or.inl (hfresh k hk).2⟩)

/-- Witness for the amended C6 at the concrete registry `khC6`, default
provider order, and the plain 429 error. -/
theorem complete_allRateLimited_witness :
    (completeModel 1000 ["openai", "anthropic", "deepseek"]
      ["openai", "anthropic", "deepseek"] LLMCapability.reasoning attPlain khC6).result =
      Except.error { attempts := 3, lastError := some errPlain } ∧
    (completeModel 1000 ["openai", "anthropic", "deepseek"]
      ["openai", "anthropic", "deepseek"] LLMCapability.reasoning attPlain khC6).attempts = 3 ∧
    cooledCnt 1000 (completeModel 1000 ["openai", "anthropic", "deepseek"]
      ["openai", "anthropic", "deepseek"] LLMCapability.reasoning attPlain khC6).health = 3 := by
  have h := complete_allRateLimited 1000 ["openai", "anthropic", "deepseek"]
    ["openai", "anthropic", "deepseek"] LLMCapability.reasoning attPlain khC6 errPlain
    (by decide) (fun p k => rfl) (by decide) (by decide) (by decide)
    (by unfold pairsNodup; decide) (by decide) (by decide)
  exact ⟨h.1, h.2.1, h.2.2.1⟩

/-! ## Lemmas about the step loop -/

/-- The blocking alerts the observation phase of step `i` reports: empty when
the task has no URL or no page driver, when the observer throws, or when the
page has no captcha/2fa alert. -/
def stepBlocking (env : RunnerEnv) (url : Option String) (i : Nat) : List AlertType :=
  if url.isSome && env.hasGetPageState then
    match env.obsRes i with
    | Except.error _ => []
    | Except.ok ps => ps.alerts.filter isBlockingAlert
  else []

/-- An iteration that exits with the failure flag exits with the
consecutive-failures reason and records no step. -/
theorem runLoopIter_failed {env : RunnerEnv} {agentId taskId : String}
    {url : Option String} {plan : List String} {stepIdx cf : Nat}
    {mem0 : WorkingMemory} {steps : List RunStep} {w : World} {out : LoopOut}
    (h : runLoopIter env agentId taskId url plan stepIdx cf mem0 steps w = Sum.inl out)
    (hf : out.taskFailed = true) :
    out.pauseReason =
      some (toString MAX_CONSECUTIVE_FAILURES ++ " consecutive failures") ∧
    out.steps = steps := by
  simp only [runLoopIter] at h
  split at h
  · simp only [Sum.inl.injEq] at h
    subst h
    simp at hf
  · split at h
    · split at h
      · simp only [Sum.inl.injEq] at h
        subst h
        simp at hf
      · cases h
    · split at h
      · simp only [Sum.inl.injEq] at h
        subst h
        exact ⟨rfl, rfl⟩
      · split at h
        · simp only [Sum.inl.injEq] at h
          subst h
          simp at hf
        · cases h

/-- An iteration whose observation reports a blocking alert exits
immediately: paused with the blocked reason, no step recorded, the world
untouched. -/
theorem runLoopIter_alert {env : RunnerEnv} {agentId taskId : String}
    {url : Option String} {plan : List String} {stepIdx cf : Nat}
    {mem0 : WorkingMemory} {steps : List RunStep} {w : World}
    (halert : stepBlocking env url stepIdx ≠ []) :
    runLoopIter env agentId taskId url plan stepIdx cf mem0 steps w =
      Sum.inl { steps := steps, mem := { mem0 with currentStepIndex := some stepIdx },
                world := w,
                pauseReason := some (blockedReason (stepBlocking env url stepIdx)),
                taskFailed := false } := by
  rw [stepBlocking] at halert
  by_cases hcond : (url.isSome && env.hasGetPageState) = true
  · rw [if_pos hcond] at halert
    cases hobs : env.obsRes stepIdx with
    | error u => rw [hobs] at halert; exact absurd rfl halert
    | ok ps =>
      rw [hobs] at halert
      have hemp : (ps.alerts.filter isBlockingAlert).isEmpty = false := by
        cases hF : ps.alerts.filter isBlockingAlert with
        | nil => exact absurd hF halert
        | cons a l => rfl
      simp [runLoopIter, stepBlocking, hcond, hobs, hemp]
  · rw [if_neg hcond] at halert
    exact absurd rfl halert

/-- An iteration with no blocking alert and a successful step completion
continues with a reset failure counter and exactly one more recorded step. -/
theorem runLoopIter_ok {env : RunnerEnv} {agentId taskId : String}
    {url : Option String} {plan : List String} {stepIdx cf : Nat}
    {mem0 : WorkingMemory} {steps : List RunStep} {w : World} {text : String}
    (hnb : stepBlocking env url stepIdx = [])
    (hok : env.stepRes stepIdx = Except.ok text) :
    ∃ mem2 w2, runLoopIter env agentId taskId url plan stepIdx cf mem0 steps w =
      Sum.inr (0, mem2,
        steps ++ [{ index := stepIdx, description := plan.getD stepIdx "Execute goal",
                    result := text.trim }], w2) := by
  rw [stepBlocking] at hnb
  by_cases hcond : (url.isSome && env.hasGetPageState) = true
  · rw [if_pos hcond] at hnb
    cases hobs : env.obsRes stepIdx with
    | error u =>
      refine ⟨{ mem0 with currentStepIndex := some stepIdx }, { w with agentState := { agentId := agentId, currentTaskId := some taskId, workingMemory := some { mem0 with currentStepIndex := some stepIdx } } }, ?_⟩
      simp [runLoopIter, hok, hcond, hobs]
    | ok ps =>
      rw [hobs] at hnb
      have hnb2 : ps.alerts.filter isBlockingAlert = [] := hnb
      have hemp : (ps.alerts.filter isBlockingAlert).isEmpty = true := by
        rw [hnb2]; rfl
      refine ⟨{ mem0 with currentStepIndex := some stepIdx, lastPageStateHash := some ps.hash }, { w with agentState := { agentId := agentId, currentTaskId := some taskId, workingMemory := some { mem0 with currentStepIndex := some stepIdx, lastPageStateHash := some ps.hash } } }, ?_⟩
      simp [runLoopIter, hok, hcond, hobs, hemp]
  · refine ⟨{ mem0 with currentStepIndex := some stepIdx }, { w with agentState := { agentId := agentId, currentTaskId := some taskId, workingMemory := some { mem0 with currentStepIndex := some stepIdx } } }, ?_⟩
    simp [runLoopIter, hok, hcond]

/-- Any iteration leaves the tasks, runs and episodic entries of the world
alone, and keeps the current-task pointer it was started with. -/
theorem runLoopIter_world {env : RunnerEnv} {agentId taskId : String}
    {url : Option String} {plan : List String} {stepIdx cf : Nat}
    {mem0 : WorkingMemory} {steps : List RunStep} {w : World} :
    (∀ out, runLoopIter env agentId taskId url plan stepIdx cf mem0 steps w =
        Sum.inl out →
      out.world.tasks = w.tasks ∧ out.world.runs = w.runs ∧
      out.world.episodic = w.episodic ∧
      (w.agentState.currentTaskId = some taskId →
        out.world.agentState.currentTaskId = some taskId)) ∧
    (∀ cf2 mem2 steps2 w2,
      runLoopIter env agentId taskId url plan stepIdx cf mem0 steps w =
        Sum.inr (cf2, mem2, steps2, w2) →
      w2.tasks = w.tasks ∧ w2.runs = w.runs ∧ w2.episodic = w.episodic ∧
      w2.agentState.currentTaskId = some taskId) := by
  constructor
  · intro out h
    simp only [runLoopIter] at h
    split at h
    · simp only [Sum.inl.injEq] at h
      subst h
      exact ⟨rfl, rfl, rfl, fun hc => hc⟩
    · split at h
      · split at h
        · simp only [Sum.inl.injEq] at h
          subst h
          exact ⟨rfl, rfl, rfl, fun _ => rfl⟩
        · cases h
      · split at h
        · simp only [Sum.inl.injEq] at h
          subst h
          exact ⟨rfl, rfl, rfl, fun hc => hc⟩
        · split at h
          · simp only [Sum.inl.injEq] at h
            subst h
            exact ⟨rfl, rfl, rfl, fun _ => rfl⟩
          · cases h
  · intro cf2 mem2 steps2 w2 h
    simp only [runLoopIter] at h
    split at h
    · cases h
    · split at h
      · split at h
        · cases h
        · simp only [Sum.inr.injEq, Prod.mk.injEq] at h
          obtain ⟨_, _, _, h4⟩ := h
          subst h4
          exact ⟨rfl, rfl, rfl, rfl⟩
      · split at h
        · cases h
        · split at h
          · cases h
          · simp only [Sum.inr.injEq, Prod.mk.injEq] at h
            obtain ⟨_, _, _, h4⟩ := h
            subst h4
            exact ⟨rfl, rfl, rfl, rfl⟩

/-- The loop never touches tasks, runs or episodic entries, and keeps the
current-task pointer it was started with. -/
theorem runLoop_world (env : RunnerEnv) (agentId taskId : String)
    (url : Option String) (plan : List String) :
    ∀ (fuel stepIdx cf : Nat) (mem : WorkingMemory) (steps : List RunStep) (w : World),
      (runLoop env agentId taskId url plan fuel stepIdx cf mem steps w).world.tasks =
        w.tasks ∧
      (runLoop env agentId taskId url plan fuel stepIdx cf mem steps w).world.runs =
        w.runs ∧
      (runLoop env agentId taskId url plan fuel stepIdx cf mem steps w).world.episodic =
        w.episodic ∧
      (w.agentState.currentTaskId = some taskId →
        (runLoop env agentId taskId url plan fuel stepIdx cf mem steps
          w).world.agentState.currentTaskId = some taskId)
  | 0, stepIdx, cf, mem, steps, w => by
    simp [runLoop]
  | fuel + 1, stepIdx, cf, mem, steps, w => by
    rw [runLoop]
    cases hiter : runLoopIter env agentId taskId url plan stepIdx cf mem steps w with
    | inl out =>
      exact runLoopIter_world.1 out hiter
    | inr s =>
      obtain ⟨cf2, mem2, steps2, w2⟩ := s
      obtain ⟨ht, hr, he, hc⟩ := runLoopIter_world.2 cf2 mem2 steps2 w2 hiter
      obtain ⟨iht, ihr, ihe, ihc⟩ := runLoop_world env agentId taskId url plan
        fuel (stepIdx + 1) cf2 mem2 steps2 w2
      exact ⟨iht.trans ht, ihr.trans hr, ihe.trans he, fun _ => ihc hc⟩

/-- If the loop exits with the failure flag, the pause reason is the
consecutive-failures message. -/
theorem runLoop_failed_reason (env : RunnerEnv) (agentId taskId : String)
    (url : Option String) (plan : List String) :
    ∀ (fuel stepIdx cf : Nat) (mem : WorkingMemory) (steps : List RunStep) (w : World),
      (runLoop env agentId taskId url plan fuel stepIdx cf mem steps w).taskFailed = true →
      (runLoop env agentId taskId url plan fuel stepIdx cf mem steps w).pauseReason =
        some (toString MAX_CONSECUTIVE_FAILURES ++ " consecutive failures")
  | 0, stepIdx, cf, mem, steps, w, h => by
    simp [runLoop] at h
  | fuel + 1, stepIdx, cf, mem, steps, w, h => by
    cases hE : runLoopIter env agentId taskId url plan stepIdx cf mem steps w with
    | inl out =>
      rw [runLoop, hE] at h ⊢
      exact (runLoopIter_failed hE h).1
    | inr s =>
      obtain ⟨cf2, mem2, steps2, w2⟩ := s
      rw [runLoop, hE] at h ⊢
      exact runLoop_failed_reason env agentId taskId url plan
        fuel (stepIdx + 1) cf2 mem2 steps2 w2 h

/-- If the first `m` steps run without blocking alerts and with successful
completions, and step `stepIdx + m` observes a blocking alert (with `m`
within the remaining budget), the loop pauses with the blocked reason,
does not set the failure flag, and records exactly `m` more steps. -/
theorem runLoop_blocks (env : RunnerEnv) (agentId taskId : String)
    (url : Option String) (plan : List String) :
    ∀ (m fuel stepIdx : Nat) (mem : WorkingMemory) (steps : List RunStep) (w : World),
      m < fuel →
      (∀ j, j < m → stepBlocking env url (stepIdx + j) = [] ∧
        ∃ t, env.stepRes (stepIdx + j) = Except.ok t) →
      stepBlocking env url (stepIdx + m) ≠ [] →
      (runLoop env agentId taskId url plan fuel stepIdx 0 mem steps w).pauseReason =
        some (blockedReason (stepBlocking env url (stepIdx + m))) ∧
      (runLoop env agentId taskId url plan fuel stepIdx 0 mem steps w).taskFailed = false ∧
      (runLoop env agentId taskId url plan fuel stepIdx 0 mem steps w).steps.length =
        steps.length + m
  | 0, fuel, stepIdx, mem, steps, w, hm, _, halert => by
    obtain ⟨fuel, rfl⟩ : ∃ f, fuel = f + 1 := ⟨fuel - 1, by omega⟩
    rw [Nat.add_zero] at halert
    rw [runLoop, runLoopIter_alert halert]
    exact ⟨rfl, rfl, by simp⟩
  | m + 1, fuel, stepIdx, mem, steps, w, hm, hbefore, halert => by
    obtain ⟨fuel, rfl⟩ : ∃ f, fuel = f + 1 := ⟨fuel - 1, by omega⟩
    obtain ⟨hnb0, t0, hok0⟩ : stepBlocking env url (stepIdx + 0) = [] ∧
        ∃ t, env.stepRes (stepIdx + 0) = Except.ok t := hbefore 0 (by omega)
    rw [Nat.add_zero] at hnb0 hok0
    obtain ⟨mem2, w2, hiter⟩ :=
      @runLoopIter_ok env agentId taskId url plan stepIdx 0 mem steps w t0 hnb0 hok0
    rw [runLoop, hiter]
    have hIH := runLoop_blocks env agentId taskId url plan m fuel (stepIdx + 1)
      mem2 (steps ++ [{ index := stepIdx, description := plan.getD stepIdx "Execute goal", result := t0.trim }]) w2 (by omega)
      (fun j hj => by
        have := hbefore (j + 1) (by omega)
        rwa [show stepIdx + (j + 1) = stepIdx + 1 + j from by omega] at this)
      (by rwa [show stepIdx + 1 + m = stepIdx + (m + 1) from by omega])
    rw [show stepIdx + 1 + m = stepIdx + (m + 1) from by omega] at hIH
    refine ⟨hIH.1, hIH.2.1, ?_⟩
    show (runLoop env agentId taskId url plan fuel (stepIdx + 1) 0 mem2
      (steps ++ [{ index := stepIdx, description := plan.getD stepIdx "Execute goal", result := t0.trim }]) w2).steps.length = steps.length + (m + 1)
    rw [hIH.2.2]
    simp
    omega

/-- A member of an `updateStatus` result with the targeted id carries the new
status and reason. -/
theorem mem_updateStatus {now : Nat} {taskId : String} {status : TaskStatus}
    {reason : Option String} {tasks : List Task} {t : Task}
    (h : t ∈ updateStatus now taskId status reason tasks) (hid : t.id = taskId) :
    t.status = status ∧ t.statusReason = reason := by
  simp only [updateStatus, List.mem_map] at h
  obtain ⟨u, hu, hf⟩ := h
  by_cases hu2 : u.id = taskId
  · rw [if_pos hu2] at hf
    subst hf
    exact ⟨rfl, rfl⟩
  · rw [if_neg hu2] at hf
    subst hf
    exact absurd hid hu2

/-! ## C2 — what happens when the consecutive-failure counter reaches 3 -/

/-- C2 (amended): whenever the step loop of a run exits with the
consecutive-failure flag (the counter reached the threshold 3), the run
stops and `executeTask` sets the task's status to `paused` — not `failed` —
with reason "3 consecutive failures"; the `failed` / "max consecutive
failures" branch is unreachable because the failure path always sets
`pauseReason` too, and the paused branch is checked first. -/
theorem failures_pause_not_fail (env : RunnerEnv) (now : Nat) (runId agentId : String)
    (task : Task) (w : World) (hints : List String)
    (hsearch : env.searchRes = Except.ok hints)
    (hfail : (loopOut env agentId task w).taskFailed = true) :
    (executeTask env now runId agentId task w).2 = none ∧
    ∀ t ∈ (executeTask env now runId agentId task w).1.tasks, t.id = task.id →
      t.status = TaskStatus.paused ∧
      t.statusReason = some (toString MAX_CONSECUTIVE_FAILURES ++ " consecutive failures") := by
  have hpr : (loopOut env agentId task w).pauseReason =
      some (toString MAX_CONSECUTIVE_FAILURES ++ " consecutive failures") := by
    rw [loopOut] at hfail ⊢
    exact runLoop_failed_reason _ _ _ _ _ _ _ _ _ _ _ hfail
  constructor
  · simp [executeTask, hsearch, hpr, finishRun]
  · intro t ht hid
    simp only [executeTask, hsearch, hpr, finishRun] at ht
    exact mem_updateStatus ht hid

/-- Environment in which every step completion fails with the same error. -/
def envAllFail : RunnerEnv :=
  { searchRes := Except.ok [],
    planRes := Except.ok "plan",
    jparse := fun _ => some ["a", "b", "c", "d"],
    hasGetPageState := false,
    obsRes := fun _ => Except.error (),
    stepRes := fun _ => Except.error { status := none, message := "provider down" },
    storeRes := Except.ok () }

/-- Plan text carrying a bracketed array so `envAllFail.jparse` is used. -/
def envAllFailPlanned : RunnerEnv := { envAllFail with planRes := Except.ok "[4 steps]" }

/-- The claimed task used by the runner scenarios. -/
def taskR : Task :=
  { id := "t1", agentId := "A", status := TaskStatus.running, priority := 3,
    payload := { goal := "goal" }, createdAt := 0, updatedAt := 50 }

/-- A one-task world as it looks right after `claimNext`. -/
def wR : World :=
  { tasks := [taskR], runs := [], agentState := { agentId := "A" }, episodic := [] }

/-- C2 (counterexample): a run of three consecutive step failures does reach
the threshold (the loop exits with the failure flag), yet the task ends
`paused` with reason "3 consecutive failures", not `failed`. -/
theorem consecutiveFailures_counterexample :
    (loopOut envAllFailPlanned "A" taskR wR).taskFailed = true ∧
    (executeTask envAllFailPlanned 100 "r1" "A" taskR wR).1.tasks.map
      (fun t => (t.status, t.statusReason)) =
      [(TaskStatus.paused, some "3 consecutive failures")] ∧
    TaskStatus.paused ≠ TaskStatus.failed := by
  decide

/-- Witness for the amended C2 at the concrete all-failing environment. -/
theorem failures_pause_not_fail_witness :
    (executeTask envAllFailPlanned 100 "r1" "A" taskR wR).2 = none ∧
    ∀ t ∈ (executeTask envAllFailPlanned 100 "r1" "A" taskR wR).1.tasks,
      t.id = taskR.id →
      t.status = TaskStatus.paused ∧
      t.statusReason = some (toString MAX_CONSECUTIVE_FAILURES ++ " consecutive failures") :=
  failures_pause_not_fail envAllFailPlanned 100 "r1" "A" taskR wR [] rfl (by decide)

/-! ## C9 — blocking alerts pause the run -/

/-- C9: if the first `k` steps of a run observe no blocking alert and their
completions succeed, and the observation of step `k` (within the step budget)
reports a blocking `captcha`/`2fa` alert, then the run stops at once:
`executeTask` ends cleanly with the task `paused`, the reason naming the
alert types ("Blocked by …"), and the persisted `TaskRun` holds exactly `k`
steps — the alerted step itself is not recorded. -/
theorem captcha_pauses_run (env : RunnerEnv) (now : Nat) (runId agentId : String)
    (task : Task) (w : World) (hints : List String) (k : Nat)
    (hsearch : env.searchRes = Except.ok hints)
    (hk : k < min (computePlan env task.payload.goal).length MAX_STEPS_PER_RUN)
    (hbefore : ∀ j, j < k → stepBlocking env task.payload.url j = [] ∧
      ∃ t, env.stepRes j = Except.ok t)
    (halert : stepBlocking env task.payload.url k ≠ []) :
    (executeTask env now runId agentId task w).2 = none ∧
    (∀ t ∈ (executeTask env now runId agentId task w).1.tasks, t.id = task.id →
      t.status = TaskStatus.paused ∧
      t.statusReason = some (blockedReason (stepBlocking env task.payload.url k))) ∧
    ∃ run, (executeTask env now runId agentId task w).1.runs = w.runs ++ [run] ∧
      run.steps.length = k ∧ run.taskId = task.id ∧ run.finished = true := by
  have hblocks := runLoop_blocks env agentId task.id task.payload.url
    (computePlan env task.payload.goal) k
    (min (computePlan env task.payload.goal).length MAX_STEPS_PER_RUN) 0
    { startMemory task w with
      currentPlan := some (computePlan env task.payload.goal),
      currentStepIndex := some 0 }
    [] (startWorld agentId task w) hk
    (fun j hj => by simpa using hbefore j hj)
    (by simpa using halert)
  simp only [Nat.zero_add, List.length_nil] at hblocks
  have hpr : (loopOut env agentId task w).pauseReason =
      some (blockedReason (stepBlocking env task.payload.url k)) := by
    rw [loopOut]
    exact hblocks.1
  have hsl : (loopOut env agentId task w).steps.length = k := by
    rw [loopOut]
    exact hblocks.2.2
  have hwr : (loopOut env agentId task w).world.runs = w.runs := by
    rw [loopOut]
    exact (runLoop_world env agentId task.id task.payload.url
      (computePlan env task.payload.goal) _ _ _ _ _ _).2.1
  refine ⟨?_, ?_, ?_⟩
  · simp [executeTask, hsearch, hpr, finishRun]
  · intro t ht hid
    simp only [executeTask, hsearch, hpr, finishRun] at ht
    exact mem_updateStatus ht hid
  · refine ⟨{ id := runId, taskId := task.id, agentId := agentId, steps := (loopOut env agentId task w).steps, finished := true }, ?_, hsl, rfl, rfl⟩
    simp only [executeTask, hsearch, hpr, finishRun]
    rw [hwr]

/-- Environment for the C9 witness: plan of three steps, a captcha alert
observed at step 1 only, all completions succeeding. -/
def envCaptcha : RunnerEnv :=
  { searchRes := Except.ok [],
    planRes := Except.ok "[3 steps]",
    jparse := fun _ => some ["a", "b", "c"],
    hasGetPageState := true,
    obsRes := fun i =>
      if i == 1 then Except.ok { title := "p", alerts := [AlertType.captcha], hash := "h" }
      else Except.ok { title := "p", alerts := [], hash := "h" },
    stepRes := fun _ => Except.ok "done",
    storeRes := Except.ok () }

/-- A claimed task with a target URL. -/
def taskU : Task :=
  { id := "t9", agentId := "A", status := TaskStatus.running, priority := 3,
    payload := { goal := "browse", url := some "https://example.com" },
    createdAt := 0, updatedAt := 50 }

/-- A one-task world for the C9 witness. -/
def wU : World :=
  { tasks := [taskU], runs := [], agentState := { agentId := "A" }, episodic := [] }

/-- Witness for C9: captcha observed at step 1 pauses the run with
"Blocked by captcha" and records exactly one step. -/
theorem captcha_pauses_run_witness :
    (executeTask envCaptcha 100 "r9" "A" taskU wU).2 = none ∧
    (∀ t ∈ (executeTask envCaptcha 100 "r9" "A" taskU wU).1.tasks, t.id = taskU.id →
      t.status = TaskStatus.paused ∧
      t.statusReason = some (blockedReason (stepBlocking envCaptcha taskU.payload.url 1))) ∧
    ∃ run, (executeTask envCaptcha 100 "r9" "A" taskU wU).1.runs = wU.runs ++ [run] ∧
      run.steps.length = 1 ∧ run.taskId = taskU.id ∧ run.finished = true :=
  captcha_pauses_run envCaptcha 100 "r9" "A" taskU wU [] 1 rfl (by decide)
    (fun j hj => by
      interval_cases j
      exact ⟨by decide, "done", rfl⟩)
    (by decide)

/-! ## C3 — plan responses without a parseable array -/

/-- Environment whose plan response has no bracketed substring at all; the
JSON parser oracle succeeds on anything, showing it is never consulted. -/
def envNoArr : RunnerEnv :=
  { searchRes := Except.ok [],
    planRes := Except.ok "I could not produce a plan.",
    jparse := fun _ => some ["x"],
    hasGetPageState := false,
    obsRes := fun _ => Except.error (),
    stepRes := fun _ => Except.ok "ok",
    storeRes := Except.ok () }

/-- C3 (counterexample): when the plan response contains no bracketed
substring (so no JSON array can be parsed from it), the plan is the empty
list, not `[goal]`. -/
theorem planparse_counterexample :
    extractBracket "I could not produce a plan." = none ∧
    computePlan envNoArr "mygoal" = [] ∧
    ([] : List String) ≠ ["mygoal"] := by
  decide

/-- C3 (amended): if the plan completion succeeds but its text contains no
bracketed substring, the plan is the empty list (the `[goal]` fallback fires
only when the completion itself fails or when a bracketed substring is found
but fails to parse); the task is still not aborted — with no recurrence it
completes with status `done`, a clean return, and a persisted run of zero
steps. -/
theorem planparse_empty_plan (env : RunnerEnv) (now : Nat) (runId agentId : String)
    (task : Task) (w : World) (hints : List String) (text : String)
    (hsearch : env.searchRes = Except.ok hints)
    (hplan : env.planRes = Except.ok text)
    (hnb : extractBracket text = none)
    (hrec : nonOnceRecurrence task.recurrence = false)
    (hstore : env.storeRes = Except.ok ()) :
    computePlan env task.payload.goal = [] ∧
    (executeTask env now runId agentId task w).2 = none ∧
    (∀ t ∈ (executeTask env now runId agentId task w).1.tasks, t.id = task.id →
      t.status = TaskStatus.done ∧ t.statusReason = none) ∧
    ∃ run, (executeTask env now runId agentId task w).1.runs = w.runs ++ [run] ∧
      run.steps = [] := by
  have hcp : computePlan env task.payload.goal = [] := by
    simp [computePlan, hplan, hnb]
  have hfuel : min (computePlan env task.payload.goal).length MAX_STEPS_PER_RUN = 0 := by
    rw [hcp]
    rfl
  have hlo : loopOut env agentId task w =
      { steps := [],
        mem := { startMemory task w with currentPlan := some (computePlan env task.payload.goal), currentStepIndex := some 0 },
        world := startWorld agentId task w, pauseReason := none, taskFailed := false } := by
    rw [loopOut, hfuel, runLoop]
  refine ⟨hcp, ?_, ?_, ?_⟩
  · simp [executeTask, hsearch, hlo, hrec, hstore, finishRun]
  · intro t ht hid
    simp only [executeTask, hsearch, hlo, hrec, hstore, Bool.false_eq_true, if_false,
      finishRun] at ht
    exact mem_updateStatus ht hid
  · refine ⟨{ id := runId, taskId := task.id, agentId := agentId, steps := [], finished := true }, ?_, rfl⟩
    simp [executeTask, hsearch, hlo, hrec, hstore, finishRun, startWorld]

/-- A recurrence-free task for the C3 witness. -/
def taskP : Task :=
  { id := "t3", agentId := "A", status := TaskStatus.running, priority := 3,
    payload := { goal := "mygoal" }, createdAt := 0, updatedAt := 50 }

/-- A one-task world for the C3 witness. -/
def wP : World :=
  { tasks := [taskP], runs := [], agentState := { agentId := "A" }, episodic := [] }

/-- Witness for the amended C3 at the bracket-free plan response. -/
theorem planparse_empty_plan_witness :
    computePlan envNoArr taskP.payload.goal = [] ∧
    (executeTask envNoArr 100 "r3" "A" taskP wP).2 = none ∧
    (∀ t ∈ (executeTask envNoArr 100 "r3" "A" taskP wP).1.tasks, t.id = taskP.id →
      t.status = TaskStatus.done ∧ t.statusReason = none) ∧
    ∃ run, (executeTask envNoArr 100 "r3" "A" taskP wP).1.runs = wP.runs ++ [run] ∧
      run.steps = [] :=
  planparse_empty_plan envNoArr 100 "r3" "A" taskP wP [] "I could not produce a plan."
    rfl rfl (by decide) rfl rfl

/-! ## C4 — failures of the episodic-memory collaborator -/

/-- C4 (amended): the two episodic-memory calls are the only unprotected
awaits in `executeTask`, and a throw from either aborts the run.  A throwing
`search` aborts before anything beyond the initial agent-state save: the
error propagates, the tasks and runs tables are untouched (the task stays
`running`, no `TaskRun` is persisted) and the current-task pointer is left
set.  A throwing `store` on the success path aborts after the final status
update but before `saveTaskRun`: the error propagates, no `TaskRun` is
persisted and the current-task pointer is left set.  (Only the tick loop's
catch-all keeps the poller alive.) -/
theorem memoryFailure_aborts_run (env : RunnerEnv) (now : Nat) (runId agentId : String)
    (task : Task) (w : World) :
    (∀ e, env.searchRes = Except.error e →
      executeTask env now runId agentId task w =
        (startWorld agentId task w, some (RunnerErr.memSearchFailed e)) ∧
      (startWorld agentId task w).tasks = w.tasks ∧
      (startWorld agentId task w).runs = w.runs ∧
      (startWorld agentId task w).agentState.currentTaskId = some task.id) ∧
    ∀ e hints, env.searchRes = Except.ok hints → env.storeRes = Except.error e →
      (loopOut env agentId task w).pauseReason = none →
      (loopOut env agentId task w).taskFailed = false →
      (executeTask env now runId agentId task w).2 =
        some (RunnerErr.memStoreFailed e) ∧
      (executeTask env now runId agentId task w).1.runs = w.runs ∧
      (executeTask env now runId agentId task w).1.agentState.currentTaskId =
        some task.id := by
  constructor
  · intro e hsearch
    refine ⟨?_, rfl, rfl, rfl⟩
    simp [executeTask, hsearch]
  · intro e hints hsearch hstore hp hf
    have hwr : (loopOut env agentId task w).world.runs = w.runs := by
      rw [loopOut]
      exact (runLoop_world env agentId task.id task.payload.url
        (computePlan env task.payload.goal) _ _ _ _ _ _).2.1
    have hwc : (loopOut env agentId task w).world.agentState.currentTaskId =
        some task.id := by
      rw [loopOut]
      exact (runLoop_world env agentId task.id task.payload.url
        (computePlan env task.payload.goal) _ _ _ _ _ _).2.2.2 rfl
    refine ⟨?_, ?_, ?_⟩
    · simp [executeTask, hsearch, hp, hf, hstore]
    · simp only [executeTask, hsearch, hp, hf, hstore, Bool.false_eq_true, if_false]
      split
      · exact hwr
      · exact hwr
    · simp only [executeTask, hsearch, hp, hf, hstore, Bool.false_eq_true, if_false]
      split
      · exact hwc
      · exact hwc

/-- Environment whose episodic search throws. -/
def envSearchFail : RunnerEnv :=
  { envAllFail with searchRes := Except.error { status := none, message := "memory db down" } }

/-- C4 (counterexample): with a throwing memory search, `executeTask`
propagates the error; no `TaskRun` is persisted, the current-task pointer is
not cleared, and the task never reaches a final status (it stays `running`). -/
theorem memoryFailure_counterexample :
    (executeTask envSearchFail 100 "r4" "A" taskR wR).2 =
      some (RunnerErr.memSearchFailed { status := none, message := "memory db down" }) ∧
    (executeTask envSearchFail 100 "r4" "A" taskR wR).1.runs = [] ∧
    (executeTask envSearchFail 100 "r4" "A" taskR wR).1.agentState.currentTaskId =
      some "t1" ∧
    (executeTask envSearchFail 100 "r4" "A" taskR wR).1.tasks.map (fun t => t.status) =
      [TaskStatus.running] := by
  decide

/-- Environment whose episodic store throws after successful steps. -/
def envStoreFail : RunnerEnv :=
  { searchRes := Except.ok [],
    planRes := Except.ok "[2 steps]",
    jparse := fun _ => some ["a", "b"],
    hasGetPageState := false,
    obsRes := fun _ => Except.error (),
    stepRes := fun _ => Except.ok "ok",
    storeRes := Except.error { status := none, message := "memory db down" } }

/-- Witness for the amended C4: the search-failure conjunct at the concrete
failing environment, and the store-failure conjunct at a run that completes
its steps but cannot record its summary. -/
theorem memoryFailure_aborts_run_witness :
    (executeTask envSearchFail 100 "r4" "A" taskR wR =
      (startWorld "A" taskR wR, some (RunnerErr.memSearchFailed { status := none, message := "memory db down" }))) ∧
    (executeTask envStoreFail 100 "r5" "A" taskR wR).2 =
      some (RunnerErr.memStoreFailed { status := none, message := "memory db down" }) ∧
    (executeTask envStoreFail 100 "r5" "A" taskR wR).1.runs = wR.runs ∧
    (executeTask envStoreFail 100 "r5" "A" taskR wR).1.agentState.currentTaskId =
      some taskR.id := by
  have h1 := (memoryFailure_aborts_run envSearchFail 100 "r4" "A" taskR wR).1
    { status := none, message := "memory db down" } rfl
  have h2 := (memoryFailure_aborts_run envStoreFail 100 "r5" "A" taskR wR).2
    { status := none, message := "memory db down" } [] rfl rfl (by decide) (by decide)
  exact ⟨h1.1, h2.1, h2.2.1, h2.2.2⟩

end OpenClaw
